import Mathlib

/-!
Shallow embedding of the worldfall dungeon-crawler core
(src/map.rs, src/player.rs, src/enemy.rs, src/combat.rs, src/main.rs)
together with theorems settling the specification claims.

Conventions of the embedding:
* `Vec<Vec<T>>` grids are embedded as total functions `Nat → Nat → T`
  indexed row-major (`tiles y x` is `self.tiles[y][x]`), together with the
  `width`/`height` fields; all reads performed by the program are guarded by
  the same bounds checks as the source.
* Rust `usize` coordinate arithmetic `(a as i32 + d) as usize` is embedded
  by `usize_cast ((a : Int) + d)`, the wrapping cast to 64-bit, so that
  underflow past the grid edge produces a huge (hence out-of-bounds)
  coordinate exactly as in the source.
* Randomness (`rand::thread_rng`) is embedded as an explicit stream of
  naturals (`Rng`); `gen_range`/`gen_bool` consume one draw each, in the
  order the source performs them.
-/

namespace Worldfall

/-- Tile classification, from `enum Tile` in src/map.rs. -/
inductive Tile where
  | Wall
  | Floor
  | Corridor
  | Door
  | Potion
deriving DecidableEq, Repr

/-- `Tile::is_walkable` (src/map.rs): Floor, Corridor, Door and Potion are
walkable; Wall is not. -/
def Tile.is_walkable : Tile → Bool
  | .Floor => true
  | .Corridor => true
  | .Door => true
  | .Potion => true
  | .Wall => false

/-- Rectangular room, from `struct Room` in src/map.rs. -/
structure Room where
  x : Nat
  y : Nat
  width : Nat
  height : Nat
deriving DecidableEq, Repr

/-- `Room::center` (src/map.rs): origin plus half the size, integer division. -/
def Room.center (r : Room) : Nat × Nat :=
  (r.x + r.width / 2, r.y + r.height / 2)

/-- `Room::intersects` (src/map.rs, lines 51-56), literally:
`self.x < other.x + other.width + 1 && self.x + self.width + 1 > other.x`
and the same on the y axis. -/
def Room.intersects (a b : Room) : Bool :=
  decide (a.x < b.x + b.width + 1) && decide (a.x + a.width + 1 > b.x) &&
  decide (a.y < b.y + b.height + 1) && decide (a.y + a.height + 1 > b.y)

/-- Point update of a row-major matrix: `f[y][x] = v`. -/
def setCell {α : Type} (f : Nat → Nat → α) (y x : Nat) (v : α) : Nat → Nat → α :=
  fun y' x' => if y' = y ∧ x' = x then v else f y' x'

/-- The map, from `struct Map` in src/map.rs.  The tile and revealed
matrices are embedded as total functions; only in-bounds cells are ever
consulted through the bounds-checked accessors below. -/
structure Map where
  width : Nat
  height : Nat
  tiles : Nat → Nat → Tile
  rooms : List Room
  revealed : Nat → Nat → Bool

/-- `Map::new` (src/map.rs): all Wall, nothing revealed, no rooms. -/
def Map.new (width height : Nat) : Map :=
  { width := width
    height := height
    tiles := fun _ _ => Tile.Wall
    rooms := []
    revealed := fun _ _ => false }

/-- `Map::get_tile` (src/map.rs, lines 230-232):
`self.tiles.get(y).and_then(|row| row.get(x))` on a rectangular
height × width matrix. -/
def Map.get_tile (m : Map) (x y : Nat) : Option Tile :=
  if y < m.height ∧ x < m.width then some (m.tiles y x) else none

/-- `Map::is_walkable` (src/map.rs): `get_tile(x,y).map_or(false, walkable)`. -/
def Map.is_walkable (m : Map) (x y : Nat) : Bool :=
  match m.get_tile x y with
  | some t => t.is_walkable
  | none => false

/-- `Map::carve_room` (src/map.rs, lines 202-208): every cell of the room
rectangle becomes Floor. -/
def Map.carve_room (m : Map) (room : Room) : Map :=
  { m with tiles := fun y x =>
      if room.y ≤ y ∧ y < room.y + room.height ∧ room.x ≤ x ∧ x < room.x + room.width
      then Tile.Floor else m.tiles y x }

/-- `Map::carve_horizontal_corridor` (src/map.rs, lines 210-218): every
in-bounds Wall cell of row `y` between `x1` and `x2` (inclusive, either
order) becomes Corridor.  The loop touches pairwise distinct cells, so
reading the pre-loop state is equivalent to the in-place loop. -/
def Map.carve_horizontal_corridor (m : Map) (x1 x2 y : Nat) : Map :=
  { m with tiles := fun y' x' =>
      if y' = y ∧ min x1 x2 ≤ x' ∧ x' ≤ max x1 x2 ∧ y < m.height ∧ x' < m.width ∧
         m.tiles y' x' = Tile.Wall
      then Tile.Corridor else m.tiles y' x' }

/-- `Map::carve_vertical_corridor` (src/map.rs, lines 220-228). -/
def Map.carve_vertical_corridor (m : Map) (y1 y2 x : Nat) : Map :=
  { m with tiles := fun y' x' =>
      if x' = x ∧ min y1 y2 ≤ y' ∧ y' ≤ max y1 y2 ∧ y' < m.height ∧ x < m.width ∧
         m.tiles y' x' = Tile.Wall
      then Tile.Corridor else m.tiles y' x' }

/-- One iteration of a door-placement edge loop (src/map.rs, lines 155-198):
at candidate cell `(cx, cy)` just outside a room edge, with `perps` the
in-bounds perpendicular neighbour cells (an out-of-bounds side imposes no
requirement, matching `x == 0 || ...` and `x + 1 >= self.width || ...`):
if the cell is currently Corridor and every perpendicular neighbour is
currently Wall, the cell becomes a Door. -/
def doorStep (cx cy : Nat) (perps : List (Nat × Nat)) (m : Map) : Map :=
  if m.tiles cy cx = Tile.Corridor ∧ (∀ p ∈ perps, m.tiles p.2 p.1 = Tile.Wall)
  then { m with tiles := setCell m.tiles cy cx Tile.Door }
  else m

/-- Common shape of the four edge loops of `Map::place_doors`: for each
index, under the edge's guard, try to place a door at `cell i` with
perpendicular requirement `perps i`.  The guard and the bounds read by
`perps` use the dimensions of the map the pass started from; `doorStep`
never changes dimensions, so this equals reading them from the evolving
map as the source does. -/
def edgeFold (guard : Prop) [Decidable guard] (cell : Nat → Nat × Nat)
    (perps : Nat → List (Nat × Nat)) (idxs : List Nat) (m : Map) : Map :=
  idxs.foldl (fun acc i =>
    if guard then doorStep (cell i).1 (cell i).2 (perps i) acc else acc) m

/-- Top-wall loop of `Map::place_doors` (src/map.rs, lines 155-165). -/
def Map.doors_top (m : Map) (room : Room) : Map :=
  edgeFold (room.y > 0) (fun x => (x, room.y - 1))
    (fun x => (if x = 0 then [] else [(x - 1, room.y - 1)]) ++
      (if x + 1 ≥ m.width then [] else [(x + 1, room.y - 1)]))
    (List.range' room.x room.width) m

/-- Bottom-wall loop of `Map::place_doors` (src/map.rs, lines 166-176). -/
def Map.doors_bottom (m : Map) (room : Room) : Map :=
  edgeFold (room.y + room.height < m.height) (fun x => (x, room.y + room.height))
    (fun x => (if x = 0 then [] else [(x - 1, room.y + room.height)]) ++
      (if x + 1 ≥ m.width then [] else [(x + 1, room.y + room.height)]))
    (List.range' room.x room.width) m

/-- Left-wall loop of `Map::place_doors` (src/map.rs, lines 177-187). -/
def Map.doors_left (m : Map) (room : Room) : Map :=
  edgeFold (room.x > 0) (fun y => (room.x - 1, y))
    (fun y => (if y = 0 then [] else [(room.x - 1, y - 1)]) ++
      (if y + 1 ≥ m.height then [] else [(room.x - 1, y + 1)]))
    (List.range' room.y room.height) m

/-- Right-wall loop of `Map::place_doors` (src/map.rs, lines 188-198). -/
def Map.doors_right (m : Map) (room : Room) : Map :=
  edgeFold (room.x + room.width < m.width) (fun y => (room.x + room.width, y))
    (fun y => (if y = 0 then [] else [(room.x + room.width, y - 1)]) ++
      (if y + 1 ≥ m.height then [] else [(room.x + room.width, y + 1)]))
    (List.range' room.y room.height) m

/-- Body of the per-room loop of `Map::place_doors`: the four edges in
source order. -/
def Map.place_doors_room (m : Map) (room : Room) : Map :=
  (((m.doors_top room).doors_bottom room).doors_left room).doors_right room

/-- `Map::place_doors` (src/map.rs, lines 149-200): one pass over the
(unchanging) room list. -/
def Map.place_doors (m : Map) : Map :=
  m.rooms.foldl Map.place_doors_room m

/-- Explicit stream of random draws standing for `rand::thread_rng`. -/
structure Rng where
  f : Nat → Nat
  pos : Nat

/-- Consume one draw. -/
def Rng.next (r : Rng) : Nat × Rng :=
  (r.f r.pos, ⟨r.f, r.pos + 1⟩)

/-- `rng.gen_range(lo..=hi)` applied to a raw draw `n`: a value in
`[lo, hi]` whenever `lo ≤ hi` (the Rust call requires a non-empty range). -/
def genRangeIncl (lo hi n : Nat) : Nat :=
  lo + n % (hi + 1 - lo)

/-- `rng.gen_range(lo..hi)` applied to a raw draw `n`: a value in
`[lo, hi)` whenever `lo < hi`. -/
def genRangeExcl (lo hi n : Nat) : Nat :=
  lo + n % (hi - lo)

/-- `rng.gen_bool(0.5)` applied to a raw draw. -/
def genBool (n : Nat) : Bool :=
  n % 2 = 0

/-- Body of the per-room loop of `Map::place_potions` (src/map.rs, lines
128-145): 50% chance per room; pick a random cell of the room; convert it
to Potion if it is not the room's center and currently Floor. -/
def Map.place_potion_room (mr : Map × Rng) (room : Room) : Map × Rng :=
  let m := mr.1
  let r1 := mr.2.next
  if genBool r1.1 then
    let r2 := r1.2.next
    let r3 := r2.2.next
    let x := genRangeExcl room.x (room.x + room.width) r2.1
    let y := genRangeExcl room.y (room.y + room.height) r3.1
    if (x, y) ≠ room.center ∧ m.tiles y x = Tile.Floor then
      ({ m with tiles := setCell m.tiles y x Tile.Potion }, r3.2)
    else (m, r3.2)
  else (m, r1.2)

/-- `Map::place_potions` (src/map.rs, lines 128-145). -/
def Map.place_potions (m : Map) (rng : Rng) : Map × Rng :=
  m.rooms.foldl Map.place_potion_room (m, rng)

/-- Candidate-room draw inside one attempt of `Map::generate` (src/map.rs,
lines 88-93): uniformly random width and height in
`[min_room_size, max_room_size]`, then a position strictly inside the grid
border. -/
def gen_candidate (min_room_size max_room_size : Nat) (m : Map) (rng0 : Rng) : Room × Rng :=
  let r1 := rng0.next
  let r2 := r1.2.next
  let r3 := r2.2.next
  let r4 := r3.2.next
  let room_width := genRangeIncl min_room_size max_room_size r1.1
  let room_height := genRangeIncl min_room_size max_room_size r2.1
  let x := genRangeExcl 1 (m.width - room_width - 1) r3.1
  let y := genRangeExcl 1 (m.height - room_height - 1) r4.1
  (⟨x, y, room_width, room_height⟩, r4.2)

/-- Acceptance path of one attempt of `Map::generate` (src/map.rs, lines
103-120): carve the room's interior to Floor; if a room was accepted
before, connect the new center to the previous accepted room's center
(`rooms.last()`) by an L-shaped corridor whose orientation is a coin flip;
append the room. -/
def Map.accept_room (m : Map) (rng : Rng) (new_room : Room) : Map × Rng :=
  let m1 := m.carve_room new_room
  match m.rooms.getLast? with
  | none => ({ m1 with rooms := m1.rooms ++ [new_room] }, rng)
  | some prev =>
      let r := rng.next
      let m2 :=
        if genBool r.1 then
          (m1.carve_horizontal_corridor prev.center.1 new_room.center.1 prev.center.2).carve_vertical_corridor
            prev.center.2 new_room.center.2 new_room.center.1
        else
          (m1.carve_vertical_corridor prev.center.2 new_room.center.2 prev.center.1).carve_horizontal_corridor
            prev.center.1 new_room.center.1 new_room.center.2
      ({ m2 with rooms := m2.rooms ++ [new_room] }, r.2)

/-- One candidate-placement attempt of `Map::generate` (src/map.rs, lines
88-120): draw a candidate, reject it if it intersects any accepted room,
otherwise accept it. -/
def Map.generate_attempt (min_room_size max_room_size : Nat) (mr : Map × Rng) : Map × Rng :=
  let c := gen_candidate min_room_size max_room_size mr.1 mr.2
  if mr.1.rooms.any (fun room => c.1.intersects room) then (mr.1, c.2)
  else mr.1.accept_room c.2 c.1

/-- The attempt loop of `Map::generate`, fuel = remaining attempts; the
loop breaks as soon as `room_count` rooms are accepted. -/
def Map.generate_loop (num_rooms min_sz max_sz : Nat) : Nat → Map × Rng → Map × Rng
  | 0, mr => mr
  | fuel + 1, mr =>
      if mr.1.rooms.length ≥ num_rooms then mr
      else Map.generate_loop num_rooms min_sz max_sz fuel (Map.generate_attempt min_sz max_sz mr)

/-- `Map::generate` (src/map.rs, lines 80-125): up to `num_rooms * 10`
attempts, then the door and potion post-passes. -/
def Map.generate (m : Map) (num_rooms min_sz max_sz : Nat) (rng : Rng) : Map × Rng :=
  let mr := Map.generate_loop num_rooms min_sz max_sz (num_rooms * 10) (m, rng)
  (mr.1.place_doors).place_potions mr.2

/-- `Map::player_spawn` (src/map.rs, lines 238-244): center of the first
accepted room, or the grid center if no room was accepted. -/
def Map.player_spawn (m : Map) : Nat × Nat :=
  match m.rooms.head? with
  | some room => room.center
  | none => (m.width / 2, m.height / 2)

/-- `Map::enemy_spawn_points` (src/map.rs): centers of all rooms but the
first. -/
def Map.enemy_spawn_points (m : Map) : List (Nat × Nat) :=
  (m.rooms.drop 1).map Room.center

/-- `Map::is_revealed` (src/map.rs, lines 320-322): bounds-checked read,
false out of bounds. -/
def Map.is_revealed (m : Map) (x y : Nat) : Bool :=
  if y < m.height ∧ x < m.width then m.revealed y x else false

/-- `Map::reveal_at` (src/map.rs, lines 325-329): reveal one in-bounds cell. -/
def Map.reveal_at (m : Map) (x y : Nat) : Map :=
  if y < m.height ∧ x < m.width then
    { m with revealed := setCell m.revealed y x true }
  else m

/-- `Map::room_at` (src/map.rs, lines 332-337): index of the room whose
rectangle contains the position. -/
def Map.room_at (m : Map) (x y : Nat) : Option Nat :=
  m.rooms.findIdx? (fun room =>
    decide (room.x ≤ x) && decide (x < room.x + room.width) &&
    decide (room.y ≤ y) && decide (y < room.y + room.height))

/-- `Map::reveal_room` (src/map.rs, lines 340-377): reveal the room
interior plus the surrounding 1-cell border, with the source's exact
clamping conditions. -/
def Map.reveal_room (m : Map) (room_idx : Nat) : Map :=
  match m.rooms.get? room_idx with
  | none => m
  | some room =>
      let start_x := room.x - 1
      let end_x := min (room.x + room.width + 1) m.width
      let start_y := room.y - 1
      let end_y := min (room.y + room.height + 1) m.height
      { m with revealed := fun y x =>
          if (room.y ≤ y ∧ y < room.y + room.height ∧ room.x ≤ x ∧ x < room.x + room.width) ∨
             (start_x ≤ x ∧ x < end_x ∧
               ((start_y < room.y ∧ y = start_y) ∨
                (room.y + room.height < end_y ∧ end_y ≤ m.height ∧ y = end_y - 1))) ∨
             (start_y ≤ y ∧ y < end_y ∧
               ((start_x < room.x ∧ x = start_x) ∨
                (room.x + room.width < end_x ∧ end_x ≤ m.width ∧ x = end_x - 1)))
          then true else m.revealed y x }

/-- `Map::is_door` (src/map.rs). -/
def Map.is_door (m : Map) (x y : Nat) : Bool :=
  match m.get_tile x y with
  | some t => decide (t = Tile.Door)
  | none => false

/-- `Map::is_corridor` (src/map.rs). -/
def Map.is_corridor (m : Map) (x y : Nat) : Bool :=
  match m.get_tile x y with
  | some t => decide (t = Tile.Corridor)
  | none => false

/-- `Map::reveal_surroundings` (src/map.rs, lines 390-402): reveal the
in-bounds part of the 3×3 block centered at `(x, y)`.  (On `Nat`,
`x - 1 ≤ x'` at `x = 0` admits `x' ∈ {0, 1}`, matching the source's
`nx ≥ 0` filter on signed coordinates.) -/
def Map.reveal_surroundings (m : Map) (x y : Nat) : Map :=
  { m with revealed := fun y' x' =>
      if x' < m.width ∧ y' < m.height ∧
         x - 1 ≤ x' ∧ x' ≤ x + 1 ∧ y - 1 ≤ y' ∧ y' ≤ y + 1
      then true else m.revealed y' x' }

/-- `Map::is_potion` (src/map.rs). -/
def Map.is_potion (m : Map) (x y : Nat) : Bool :=
  match m.get_tile x y with
  | some t => decide (t = Tile.Potion)
  | none => false

/-- `Map::pickup_potion` (src/map.rs, lines 410-414): convert an in-bounds
Potion cell to Floor. -/
def Map.pickup_potion (m : Map) (x y : Nat) : Map :=
  if y < m.height ∧ x < m.width ∧ m.tiles y x = Tile.Potion then
    { m with tiles := setCell m.tiles y x Tile.Floor }
  else m

/-- Wrapping cast `(… as i32) as usize` used by all coordinate steps in the
source (src/player.rs line 21, src/main.rs line 91, src/enemy.rs line 75):
the i32 arithmetic is exact for all reachable coordinates and the cast to
64-bit usize wraps negative values around `2^64`. -/
def usize_cast (z : Int) : Nat :=
  (z % (2 : Int) ^ 64).toNat

/-- Player entity, from `struct Player` in src/player.rs. -/
structure Player where
  x : Nat
  y : Nat
  hp : Int
  max_hp : Int
  power : Int
deriving DecidableEq, Repr

/-- `Player::new` (src/player.rs): 20 HP, power 5. -/
def Player.new (x y : Nat) : Player :=
  { x := x, y := y, hp := 20, max_hp := 20, power := 5 }

/-- `Player::move_by` (src/player.rs, lines 20-23). -/
def Player.move_by (p : Player) (dx dy : Int) : Player :=
  { p with x := usize_cast ((p.x : Int) + dx), y := usize_cast ((p.y : Int) + dy) }

/-- `Player::take_damage` (src/player.rs, lines 25-30): subtract, clamp at 0. -/
def Player.take_damage (p : Player) (damage : Int) : Player :=
  { p with hp := if p.hp - damage < 0 then 0 else p.hp - damage }

/-- `Player::is_alive` (src/player.rs). -/
def Player.is_alive (p : Player) : Bool :=
  decide (p.hp > 0)

/-- `Player::heal` (src/player.rs): add, clamp at `max_hp`. -/
def Player.heal (p : Player) (amount : Int) : Player :=
  { p with hp := min (p.hp + amount) p.max_hp }

/-- Enemy kind, from `enum EnemyType` in src/enemy.rs. -/
inductive EnemyType where
  | Goblin
deriving DecidableEq, Repr

/-- `EnemyType::base_hp` (src/enemy.rs). -/
def EnemyType.base_hp : EnemyType → Int
  | .Goblin => 6

/-- `EnemyType::base_power` (src/enemy.rs). -/
def EnemyType.base_power : EnemyType → Int
  | .Goblin => 3

/-- Enemy entity, from `struct Enemy` in src/enemy.rs. -/
structure Enemy where
  x : Nat
  y : Nat
  hp : Int
  max_hp : Int
  power : Int
  enemy_type : EnemyType
deriving DecidableEq, Repr

/-- `Enemy::new` (src/enemy.rs). -/
def Enemy.new (x y : Nat) (t : EnemyType) : Enemy :=
  { x := x, y := y, hp := t.base_hp, max_hp := t.base_hp, power := t.base_power, enemy_type := t }

/-- `Enemy::goblin` (src/enemy.rs). -/
def Enemy.goblin (x y : Nat) : Enemy :=
  Enemy.new x y EnemyType.Goblin

/-- `Enemy::take_damage` (src/enemy.rs, lines 56-61): subtract, clamp at 0. -/
def Enemy.take_damage (e : Enemy) (damage : Int) : Enemy :=
  { e with hp := if e.hp - damage < 0 then 0 else e.hp - damage }

/-- `Enemy::is_alive` (src/enemy.rs). -/
def Enemy.is_alive (e : Enemy) : Bool :=
  decide (e.hp > 0)

/-- `Enemy::distance_to` (src/enemy.rs, lines 102-106): Manhattan distance. -/
def Enemy.distance_to (e : Enemy) (x y : Nat) : Nat :=
  ((e.x : Int) - (x : Int)).natAbs + ((e.y : Int) - (y : Int)).natAbs

/-- `Enemy::position_occupied` (src/enemy.rs, lines 93-100): the cell is
the player's, or holds a live enemy other than the one at `exclude_index`. -/
def Enemy.position_occupied (x y : Nat) (enemies : List Enemy) (exclude_index : Nat)
    (player_x player_y : Nat) : Bool :=
  if x = player_x ∧ y = player_y then true
  else enemies.enum.any (fun ie =>
    decide (ie.1 ≠ exclude_index) && ie.2.is_alive &&
    decide (ie.2.x = x) && decide (ie.2.y = y))

/-- `Enemy::move_toward` (src/enemy.rs, lines 71-91): greedy step toward
the target; try the diagonal step, then horizontal only, then vertical
only, each gated on walkability and non-occupancy; otherwise stay. -/
def Enemy.move_toward (e : Enemy) (target_x target_y : Nat) (m : Map) (enemies : List Enemy)
    (self_index : Nat) (player_x player_y : Nat) : Enemy :=
  let dx : Int := ((target_x : Int) - (e.x : Int)).sign
  let dy : Int := ((target_y : Int) - (e.y : Int)).sign
  let new_x := usize_cast ((e.x : Int) + dx)
  let new_y := usize_cast ((e.y : Int) + dy)
  if m.is_walkable new_x new_y = true ∧
     Enemy.position_occupied new_x new_y enemies self_index player_x player_y = false then
    { e with x := new_x, y := new_y }
  else if dx ≠ 0 ∧ m.is_walkable new_x e.y = true ∧
     Enemy.position_occupied new_x e.y enemies self_index player_x player_y = false then
    { e with x := new_x }
  else if dy ≠ 0 ∧ m.is_walkable e.x new_y = true ∧
     Enemy.position_occupied e.x new_y enemies self_index player_x player_y = false then
    { e with y := new_y }
  else e

/-- Combat outcome, from `struct CombatResult` in src/combat.rs. -/
structure CombatResult where
  damage : Int
  message : String
deriving DecidableEq, Repr

/-- `player_attack` (src/combat.rs, lines 10-24) with the variance roll
(`gen_range(0..=3)`) passed explicitly: damage is
`(player.power - variance).max(1)`, applied to the enemy. -/
def player_attack (variance : Int) (player : Player) (enemy : Enemy) : Enemy × CombatResult :=
  let damage := max (player.power - variance) 1
  let enemy := enemy.take_damage damage
  let message :=
    if enemy.is_alive then "You hit the goblin for " ++ toString damage ++ " damage!"
    else "You killed the goblin!"
  (enemy, { damage := damage, message := message })

/-- `enemy_attack` (src/combat.rs, lines 26-40) with the variance roll
(`gen_range(0..=2)`) passed explicitly. -/
def enemy_attack (variance : Int) (enemy : Enemy) (player : Player) : Player × CombatResult :=
  let damage := max (enemy.power - variance) 1
  let player := player.take_damage damage
  let message :=
    if player.is_alive then "The goblin hits you for " ++ toString damage ++ " damage!"
    else "The goblin killed you!"
  (player, { damage := damage, message := message })

/-- Map dimensions and generation constants of src/main.rs. -/
def MAP_WIDTH : Nat := 100

/-- Map height constant of src/main.rs. -/
def MAP_HEIGHT : Nat := 35

/-- Room count constant of src/main.rs. -/
def NUM_ROOMS : Nat := 12

/-- Minimum room size constant of src/main.rs. -/
def MIN_ROOM_SIZE : Nat := 4

/-- Maximum room size constant of src/main.rs. -/
def MAX_ROOM_SIZE : Nat := 8

/-- Chase range constant of src/main.rs. -/
def ENEMY_CHASE_RANGE : Nat := 8

/-- `Renderer::add_message` (src/render.rs, lines 36-41): push, keeping at
most the 5 most recent messages. -/
def add_message (msgs : List String) (msg : String) : List String :=
  let msgs := msgs ++ [msg]
  if msgs.length > 5 then msgs.drop 1 else msgs

/-- Game state, from `struct Game` in src/main.rs; `messages` is the only
state of the excluded `Renderer`. -/
structure Game where
  map : Map
  player : Player
  enemies : List Enemy
  messages : List String

/-- `Game::enemy_at` (src/main.rs, lines 160-162): index of the live enemy
at the position. -/
def Game.enemy_at (g : Game) (x y : Nat) : Option Nat :=
  g.enemies.findIdx? (fun e => e.is_alive && decide (e.x = x) && decide (e.y = y))

/-- Door-adjacency reveal loop of `handle_player_move` (src/main.rs, lines
120-126): for each of the 4 orthogonal neighbours of the destination,
reveal the room containing it, if any. -/
def door_adj_reveal (new_x new_y : Nat) (m : Map) : Map :=
  [((-1 : Int), (0 : Int)), (1, 0), (0, -1), (0, 1)].foldl (fun mp d =>
    let adj_x := usize_cast ((new_x : Int) + d.1)
    let adj_y := usize_cast ((new_y : Int) + d.2)
    match mp.room_at adj_x adj_y with
    | some room_idx => mp.reveal_room room_idx
    | none => mp) m

/-- Map after the reveal-at and corridor-surroundings steps of a resolved
player move (src/main.rs, lines 102-107). -/
def move_map_vis (m : Map) (new_x new_y : Nat) : Map :=
  let map1 := m.reveal_at new_x new_y
  if map1.is_corridor new_x new_y then map1.reveal_surroundings new_x new_y else map1

/-- Whether the potion-pickup branch of a resolved player move fires
(src/main.rs, line 110): the destination holds a potion, checked on the
map after the reveal steps (which do not change tiles). -/
def move_potion_found (m : Map) (new_x new_y : Nat) : Bool :=
  (move_map_vis m new_x new_y).is_potion new_x new_y

/-- Full map bookkeeping of a resolved player move (src/main.rs, lines
102-132): reveal the destination, reveal corridor surroundings, pick up a
potion, reveal rooms adjacent to a door, reveal the room entered. -/
def move_map_update (m : Map) (new_x new_y : Nat) : Map :=
  let map2 := move_map_vis m new_x new_y
  let map3 := if map2.is_potion new_x new_y then map2.pickup_potion new_x new_y else map2
  let map4 := if map3.is_door new_x new_y then door_adj_reveal new_x new_y map3 else map3
  match map4.room_at new_x new_y with
  | some room_idx => map4.reveal_room room_idx
  | none => map4

/-- `Game::handle_player_move` (src/main.rs, lines 90-133), with the
player-attack variance roll passed explicitly: attack the live enemy at
the destination, or move onto a walkable destination and perform the
reveal / potion / door / room-entry bookkeeping in source order (the
potion branch heals the player and logs a message besides converting the
tile). -/
def Game.handle_player_move (variance : Int) (g : Game) (dx dy : Int) : Game :=
  let new_x := usize_cast ((g.player.x : Int) + dx)
  let new_y := usize_cast ((g.player.y : Int) + dy)
  match g.enemy_at new_x new_y with
  | some enemy_idx =>
      match g.enemies.get? enemy_idx with
      | some en =>
          let ar := player_attack variance g.player en
          { g with enemies := g.enemies.set enemy_idx ar.1
                   messages := add_message g.messages ar.2.message }
      | none => g
  | none =>
      if g.map.is_walkable new_x new_y then
        let got := move_potion_found g.map new_x new_y
        { g with
          player :=
            if got then (g.player.move_by dx dy).heal 5 else g.player.move_by dx dy,
          map := move_map_update g.map new_x new_y,
          messages :=
            if got then
              add_message g.messages
                ("You drink a potion and restore " ++ toString (5 : Int) ++ " HP!")
            else g.messages }
      else g

/-- One iteration of the enemy loop in `Game::enemy_turns` (src/main.rs,
lines 140-157), with the enemy-attack variance roll for index `i` given by
`variances i`.  The snapshot passed to `move_toward` is
`self.enemies.clone()` taken at this iteration, i.e. the current enemy
list. -/
def enemy_turn_step (variances : Nat → Int) (px py : Nat) (st : Game) (i : Nat) : Game :=
  match st.enemies.get? i with
  | none => st
  | some e =>
      if e.is_alive = false then st
      else
        let distance := e.distance_to px py
        if distance = 1 then
          let ar := enemy_attack (variances i) e st.player
          { st with player := ar.1, messages := add_message st.messages ar.2.message }
        else if distance ≤ ENEMY_CHASE_RANGE then
          let enemies_snapshot := st.enemies
          let e' := e.move_toward px py st.map enemies_snapshot i px py
          { st with enemies := st.enemies.set i e' }
        else st

/-- `Game::enemy_turns` generalized to an arbitrary processing order of
enemy indices; the source processes `0, 1, …, enemies.len() - 1`. -/
def Game.enemy_turns_order (variances : Nat → Int) (order : List Nat) (g : Game) : Game :=
  order.foldl (enemy_turn_step variances g.player.x g.player.y) g

/-- `Game::enemy_turns` (src/main.rs, lines 136-158): the player position
is read once before the loop; each live enemy adjacent to the player
attacks, each live enemy within chase range steps toward the player. -/
def Game.enemy_turns (variances : Nat → Int) (g : Game) : Game :=
  g.enemy_turns_order variances (List.range g.enemies.length)

/-- Initial game construction, `Game::new` (src/main.rs, lines 31-59)
parameterized by the generation constants: generate the dungeon, spawn the
player at `player_spawn`, reveal the starting room, spawn one goblin per
further room center. -/
def Game.init (w h num_rooms min_sz max_sz : Nat) (rng : Rng) : Game :=
  let mr := (Map.new w h).generate num_rooms min_sz max_sz rng
  let map := mr.1
  let spawn := map.player_spawn
  let player := Player.new spawn.1 spawn.2
  let map := map.reveal_room 0
  let enemies := map.enemy_spawn_points.map (fun c => Enemy.goblin c.1 c.2)
  { map := map, player := player, enemies := enemies, messages := [] }

/-- `Game::new` with the constants of src/main.rs. -/
def Game.new (rng : Rng) : Game :=
  Game.init MAP_WIDTH MAP_HEIGHT NUM_ROOMS MIN_ROOM_SIZE MAX_ROOM_SIZE rng

/-- One full game turn for a `Move(dx, dy)` action (src/main.rs, lines
73-81): resolve the player move, then — if the player survived — the enemy
phase. -/
def Game.turn (variance : Int) (variances : Nat → Int) (g : Game) (dx dy : Int) : Game :=
  let g := g.handle_player_move variance dx dy
  if g.player.is_alive then g.enemy_turns variances else g

/-! ## Generic helper lemmas -/

/-- Fold preservation of an invariant. -/
theorem foldl_preserves {α β : Type} (P : α → Prop) (f : α → β → α) (l : List β) (a : α)
    (h : ∀ x b, P x → P (f x b)) (ha : P a) : P (l.foldl f a) := by
  induction l generalizing a with
  | nil => exact ha
  | cons b l ih => exact ih (f a b) (h a b ha)

/-- Invariant preservation along the generation attempt loop. -/
theorem generate_loop_inv (num mins maxs : Nat) (P : Map × Rng → Prop)
    (hstep : ∀ mr, P mr → P (Map.generate_attempt mins maxs mr)) :
    ∀ fuel mr, P mr → P (Map.generate_loop num mins maxs fuel mr) := by
  intro fuel
  induction fuel with
  | zero => intro mr h; exact h
  | succ n ih =>
      intro mr h
      unfold Map.generate_loop
      split
      · exact h
      · exact ih _ (hstep mr h)

/-! ## Frame lemmas: which fields each operation leaves unchanged -/

theorem doorStep_width (cx cy : Nat) (ps : List (Nat × Nat)) (m : Map) :
    (doorStep cx cy ps m).width = m.width := by
  unfold doorStep; split <;> rfl

theorem doorStep_height (cx cy : Nat) (ps : List (Nat × Nat)) (m : Map) :
    (doorStep cx cy ps m).height = m.height := by
  unfold doorStep; split <;> rfl

theorem doorStep_rooms (cx cy : Nat) (ps : List (Nat × Nat)) (m : Map) :
    (doorStep cx cy ps m).rooms = m.rooms := by
  unfold doorStep; split <;> rfl

theorem doorStep_revealed (cx cy : Nat) (ps : List (Nat × Nat)) (m : Map) :
    (doorStep cx cy ps m).revealed = m.revealed := by
  unfold doorStep; split <;> rfl

/-- Frame relation between maps: only tiles may differ. -/
def mapFrame (m m' : Map) : Prop :=
  m'.width = m.width ∧ m'.height = m.height ∧ m'.rooms = m.rooms ∧ m'.revealed = m.revealed

theorem mapFrame_rfl (m : Map) : mapFrame m m :=
  ⟨rfl, rfl, rfl, rfl⟩

theorem mapFrame_trans {a b c : Map} (h1 : mapFrame a b) (h2 : mapFrame b c) : mapFrame a c :=
  ⟨h2.1.trans h1.1, h2.2.1.trans h1.2.1, h2.2.2.1.trans h1.2.2.1, h2.2.2.2.trans h1.2.2.2⟩

theorem doorStep_mapFrame (cx cy : Nat) (ps : List (Nat × Nat)) (m : Map) :
    mapFrame m (doorStep cx cy ps m) :=
  ⟨doorStep_width cx cy ps m, doorStep_height cx cy ps m, doorStep_rooms cx cy ps m,
    doorStep_revealed cx cy ps m⟩

theorem doors_top_mapFrame (m : Map) (room : Room) : mapFrame m (m.doors_top room) := by
  unfold Map.doors_top edgeFold
  refine foldl_preserves (mapFrame m) _ _ _ ?_ (mapFrame_rfl m)
  intro a b ha
  split
  · exact mapFrame_trans ha (doorStep_mapFrame _ _ _ a)
  · exact ha

theorem doors_bottom_mapFrame (m : Map) (room : Room) : mapFrame m (m.doors_bottom room) := by
  unfold Map.doors_bottom edgeFold
  refine foldl_preserves (mapFrame m) _ _ _ ?_ (mapFrame_rfl m)
  intro a b ha
  split
  · exact mapFrame_trans ha (doorStep_mapFrame _ _ _ a)
  · exact ha

theorem doors_left_mapFrame (m : Map) (room : Room) : mapFrame m (m.doors_left room) := by
  unfold Map.doors_left edgeFold
  refine foldl_preserves (mapFrame m) _ _ _ ?_ (mapFrame_rfl m)
  intro a b ha
  split
  · exact mapFrame_trans ha (doorStep_mapFrame _ _ _ a)
  · exact ha

theorem doors_right_mapFrame (m : Map) (room : Room) : mapFrame m (m.doors_right room) := by
  unfold Map.doors_right edgeFold
  refine foldl_preserves (mapFrame m) _ _ _ ?_ (mapFrame_rfl m)
  intro a b ha
  split
  · exact mapFrame_trans ha (doorStep_mapFrame _ _ _ a)
  · exact ha

theorem place_doors_room_mapFrame (m : Map) (room : Room) :
    mapFrame m (m.place_doors_room room) := by
  unfold Map.place_doors_room
  exact mapFrame_trans (mapFrame_trans (mapFrame_trans (doors_top_mapFrame m room)
    (doors_bottom_mapFrame _ room)) (doors_left_mapFrame _ room)) (doors_right_mapFrame _ room)

/-- The whole door pass leaves width, height, rooms and revealed unchanged. -/
theorem place_doors_frame (m : Map) : mapFrame m m.place_doors := by
  unfold Map.place_doors
  refine foldl_preserves (mapFrame m) _ _ _ ?_ (mapFrame_rfl m)
  intro a b ha
  exact mapFrame_trans ha (place_doors_room_mapFrame a b)

theorem place_potion_room_mapFrame (m : Map) (mr : Map × Rng) (room : Room)
    (h : mapFrame m mr.1) : mapFrame m (Map.place_potion_room mr room).1 := by
  simp only [Map.place_potion_room]
  split
  · split
    · exact ⟨h.1, h.2.1, h.2.2.1, h.2.2.2⟩
    · exact h
  · exact h

/-- The potion pass leaves width, height, rooms and revealed unchanged. -/
theorem place_potions_frame (m : Map) (rng : Rng) : mapFrame m (m.place_potions rng).1 := by
  unfold Map.place_potions
  refine foldl_preserves (fun x : Map × Rng => mapFrame m x.1) _ _ _ ?_ (mapFrame_rfl m)
  intro a b ha
  exact place_potion_room_mapFrame m a b ha

/-! ## Claim C4: combat damage and HP clamping -/

/-- Claim C4: for every attack resolution, the damage dealt equals
`max(1, attacker power - variance)` with the player variance in `[0, 3]`
and the enemy variance in `[0, 2]`, so damage is at least 1 regardless of
the roll; and a defender with `0 ≤ hp ≤ max_hp` before the attack ends
with `hp` in `[0, max_hp]` (clamped at 0, never negative). -/
theorem c4_attack_damage_and_hp_clamped
    (vP vE : Int) (p : Player) (e : Enemy)
    (hvP : 0 ≤ vP ∧ vP ≤ 3) (hvE : 0 ≤ vE ∧ vE ≤ 2)
    (hpe : 0 ≤ e.hp ∧ e.hp ≤ e.max_hp) (hpp : 0 ≤ p.hp ∧ p.hp ≤ p.max_hp) :
    (player_attack vP p e).2.damage = max 1 (p.power - vP) ∧
    1 ≤ (player_attack vP p e).2.damage ∧
    0 ≤ (player_attack vP p e).1.hp ∧ (player_attack vP p e).1.hp ≤ e.max_hp ∧
    (enemy_attack vE e p).2.damage = max 1 (e.power - vE) ∧
    1 ≤ (enemy_attack vE e p).2.damage ∧
    0 ≤ (enemy_attack vE e p).1.hp ∧ (enemy_attack vE e p).1.hp ≤ p.max_hp := by
  have hd1 : (1 : Int) ≤ max (p.power - vP) 1 := le_max_right _ _
  have hd2 : (1 : Int) ≤ max (e.power - vE) 1 := le_max_right _ _
  simp only [player_attack, enemy_attack, Enemy.take_damage, Player.take_damage]
  refine ⟨max_comm _ _, hd1, ?_, ?_, max_comm _ _, hd2, ?_, ?_⟩ <;> split <;> omega

/-- Witness for C4 at power-5 player, goblin, variance 3 and 2. -/
theorem c4_witness :
    ((0:Int) ≤ 3 ∧ (3:Int) ≤ 3) ∧ ((0:Int) ≤ 2 ∧ (2:Int) ≤ 2) ∧
    (0 ≤ (Enemy.goblin 2 2).hp ∧ (Enemy.goblin 2 2).hp ≤ (Enemy.goblin 2 2).max_hp) ∧
    (0 ≤ (Player.new 1 1).hp ∧ (Player.new 1 1).hp ≤ (Player.new 1 1).max_hp) ∧
    ((player_attack 3 (Player.new 1 1) (Enemy.goblin 2 2)).2.damage =
        max 1 ((Player.new 1 1).power - 3) ∧
      1 ≤ (player_attack 3 (Player.new 1 1) (Enemy.goblin 2 2)).2.damage ∧
      0 ≤ (player_attack 3 (Player.new 1 1) (Enemy.goblin 2 2)).1.hp ∧
      (player_attack 3 (Player.new 1 1) (Enemy.goblin 2 2)).1.hp ≤ (Enemy.goblin 2 2).max_hp ∧
      (enemy_attack 2 (Enemy.goblin 2 2) (Player.new 1 1)).2.damage =
        max 1 ((Enemy.goblin 2 2).power - 2) ∧
      1 ≤ (enemy_attack 2 (Enemy.goblin 2 2) (Player.new 1 1)).2.damage ∧
      0 ≤ (enemy_attack 2 (Enemy.goblin 2 2) (Player.new 1 1)).1.hp ∧
      (enemy_attack 2 (Enemy.goblin 2 2) (Player.new 1 1)).1.hp ≤ (Player.new 1 1).max_hp) :=
  ⟨⟨by decide, by decide⟩, ⟨by decide, by decide⟩, ⟨by decide, by decide⟩, ⟨by decide, by decide⟩,
    c4_attack_damage_and_hp_clamped 3 2 (Player.new 1 1) (Enemy.goblin 2 2)
      ⟨by decide, by decide⟩ ⟨by decide, by decide⟩ ⟨by decide, by decide⟩ ⟨by decide, by decide⟩⟩

/-! ## Claim C9: total grid operations, blocked moves are no-ops -/

/-- Claim C9: grid operations are total and degrade to no effect:
`get_tile` out of bounds returns `none`, `is_walkable` and `is_revealed`
return false there, and a player step whose destination holds no live
enemy and is not walkable (including out of bounds) leaves the whole game
state unchanged. -/
theorem c9_total_operations (m : Map) (x y : Nat) (hoob : m.width ≤ x ∨ m.height ≤ y)
    (variance : Int) (g : Game) (dx dy : Int)
    (hne : g.enemy_at (usize_cast ((g.player.x : Int) + dx))
      (usize_cast ((g.player.y : Int) + dy)) = none)
    (hnw : g.map.is_walkable (usize_cast ((g.player.x : Int) + dx))
      (usize_cast ((g.player.y : Int) + dy)) = false) :
    m.get_tile x y = none ∧ m.is_walkable x y = false ∧ m.is_revealed x y = false ∧
    g.handle_player_move variance dx dy = g := by
  have hg : m.get_tile x y = none := by
    unfold Map.get_tile
    rw [if_neg]
    omega
  refine ⟨hg, ?_, ?_, ?_⟩
  · unfold Map.is_walkable
    rw [hg]
  · unfold Map.is_revealed
    rw [if_neg]
    omega
  · simp [Game.handle_player_move, hne, hnw]

/-- Concrete blocked-move game for the C9 witness: 3×3 all-Wall map,
player at (0,0), no enemies. -/
def c9_game : Game :=
  { map := Map.new 3 3, player := Player.new 0 0, enemies := [], messages := [] }

/-- Witness for C9: out-of-bounds query at (5,0) on a 3×3 map, and a step
right into a Wall from (0,0). -/
theorem c9_witness :
    ((Map.new 3 3).width ≤ 5 ∨ (Map.new 3 3).height ≤ 0) ∧
    c9_game.enemy_at (usize_cast ((c9_game.player.x : Int) + 1))
      (usize_cast ((c9_game.player.y : Int) + 0)) = none ∧
    c9_game.map.is_walkable (usize_cast ((c9_game.player.x : Int) + 1))
      (usize_cast ((c9_game.player.y : Int) + 0)) = false ∧
    ((Map.new 3 3).get_tile 5 0 = none ∧ (Map.new 3 3).is_walkable 5 0 = false ∧
      (Map.new 3 3).is_revealed 5 0 = false ∧
      c9_game.handle_player_move 0 1 0 = c9_game) :=
  ⟨Or.inl (by decide), by decide, by decide,
    c9_total_operations (Map.new 3 3) 5 0 (Or.inl (by decide)) 0 c9_game 1 0
      (by decide) (by decide)⟩

/-! ## Claim C2: room intersection margin and the generation invariant -/

/-- Modelled from the spec's words, for the C2 refinement comparison only:
the two bounding boxes, each expanded by a 1-tile margin on every side,
overlap on both axes.  Room `r` spans `[r.x, r.x + r.width)`; expanded by
the margin it spans `[r.x - 1, r.x + r.width + 1)` over ℤ. -/
def expanded_overlap (a b : Room) : Prop :=
  (a.x : Int) - 1 < (b.x : Int) + b.width + 1 ∧ (b.x : Int) - 1 < (a.x : Int) + a.width + 1 ∧
  (a.y : Int) - 1 < (b.y : Int) + b.height + 1 ∧ (b.y : Int) - 1 < (a.y : Int) + a.height + 1

/-- Rooms after the acceptance path: the new room is appended. -/
theorem accept_room_rooms (m : Map) (rng : Rng) (nr : Room) :
    (m.accept_room rng nr).1.rooms = m.rooms ++ [nr] := by
  unfold Map.accept_room
  dsimp only
  split
  · rfl
  · dsimp only
    split <;> rfl

/-- Rooms after one generation attempt: unchanged, or extended by one room
that intersects no previously accepted room. -/
theorem generate_attempt_rooms (mins maxs : Nat) (mr : Map × Rng) :
    (Map.generate_attempt mins maxs mr).1.rooms = mr.1.rooms ∨
    ∃ nr : Room, (Map.generate_attempt mins maxs mr).1.rooms = mr.1.rooms ++ [nr] ∧
      ∀ r ∈ mr.1.rooms, nr.intersects r = false := by
  unfold Map.generate_attempt
  dsimp only
  split
  · exact Or.inl rfl
  · rename_i hany
    right
    refine ⟨(gen_candidate mins maxs mr.1 mr.2).1, accept_room_rooms _ _ _, ?_⟩
    intro r hr
    rw [Bool.eq_false_iff]
    intro hc
    exact hany (List.any_eq_true.mpr ⟨r, hr, hc⟩)

/-- Arithmetic characterization of `Room::intersects`: the closed
coordinate spans `[x, x + width]` touch or overlap on both axes
(equivalently, one box expanded by a 1-tile margin overlaps the other,
unexpanded one). -/
theorem intersects_iff (a b : Room) :
    a.intersects b = true ↔
      a.x ≤ b.x + b.width ∧ b.x ≤ a.x + a.width ∧ a.y ≤ b.y + b.height ∧ b.y ≤ a.y + a.height := by
  simp only [Room.intersects, Bool.and_eq_true, decide_eq_true_eq]
  omega

/-- `Room::intersects` is symmetric. -/
theorem intersects_comm (a b : Room) : a.intersects b = b.intersects a := by
  have h1 := intersects_iff a b
  have h2 := intersects_iff b a
  cases hab : a.intersects b <;> cases hba : b.intersects a
  · rfl
  · rw [hab] at h1
    rw [hba] at h2
    exact h1.mpr (by have := h2.mp rfl; omega)
  · rw [hab] at h1
    rw [hba] at h2
    exact (h2.mpr (by have := h1.mp rfl; omega)).symm
  · rfl

/-- Claim C2 counterexample: two 2×2 rooms separated by exactly one tile of
wall.  The code classifies them as non-intersecting (and `generate` would
accept the pair), yet their 1-tile-expanded bounding boxes do overlap on
both axes, so "intersecting exactly when both expanded boxes overlap" is
false. -/
theorem c2_counterexample :
    Room.intersects ⟨0, 0, 2, 2⟩ ⟨3, 0, 2, 2⟩ = false ∧
    expanded_overlap ⟨0, 0, 2, 2⟩ ⟨3, 0, 2, 2⟩ := by
  constructor
  · decide
  · unfold expanded_overlap
    norm_num

/-- Claim C2 (amended): two rooms are classified as intersecting exactly
when their closed coordinate spans touch or overlap on both axes — the
margin of `Room::intersects` expands only one of the two boxes — and for
every generated dungeon (any stream, any parameters) the accepted rooms
are pairwise non-intersecting in that sense, i.e. every pair is separated
by at least one tile of wall on some axis. -/
theorem c2_intersects_margin_and_generate_invariant
    (a b : Room) (w h nr mins maxs : Nat) (rng : Rng) :
    (a.intersects b = true ↔
      a.x ≤ b.x + b.width ∧ b.x ≤ a.x + a.width ∧ a.y ≤ b.y + b.height ∧ b.y ≤ a.y + a.height) ∧
    ((Map.new w h).generate nr mins maxs rng).1.rooms.Pairwise
      (fun r s => r.intersects s = false) := by
  refine ⟨intersects_iff a b, ?_⟩
  unfold Map.generate
  have hd := place_doors_frame (Map.generate_loop nr mins maxs (nr * 10) (Map.new w h, rng)).1
  have hp := place_potions_frame
    (Map.generate_loop nr mins maxs (nr * 10) (Map.new w h, rng)).1.place_doors
    (Map.generate_loop nr mins maxs (nr * 10) (Map.new w h, rng)).2
  rw [hp.2.2.1, hd.2.2.1]
  refine generate_loop_inv nr mins maxs
    (fun mr => mr.1.rooms.Pairwise (fun r s => r.intersects s = false)) ?_ (nr * 10)
    (Map.new w h, rng) List.Pairwise.nil
  intro mr hmr
  rcases generate_attempt_rooms mins maxs mr with hsame | ⟨nr', hext, hnew⟩
  · rw [hsame]
    exact hmr
  · rw [hext]
    refine List.pairwise_append.mpr ⟨hmr, List.pairwise_singleton _ _, ?_⟩
    intro r hr s hs
    rw [List.mem_singleton] at hs
    subst hs
    rw [intersects_comm]
    exact hnew r hr

/-! ## Claim C5: visibility is monotonic -/

/-- Pointwise ordering on revealed state: every cell reported revealed by
`m` is still reported revealed by `m'`. -/
def revealedLe (m m' : Map) : Prop :=
  ∀ x y : Nat, m.is_revealed x y = true → m'.is_revealed x y = true

theorem revealedLe_refl (m : Map) : revealedLe m m :=
  fun _ _ h => h

theorem revealedLe_trans {a b c : Map} (h1 : revealedLe a b) (h2 : revealedLe b c) :
    revealedLe a c :=
  fun x y h => h2 x y (h1 x y h)

theorem reveal_at_revealedLe (m : Map) (x y : Nat) : revealedLe m (m.reveal_at x y) := by
  intro a b h
  unfold Map.reveal_at
  split
  · unfold Map.is_revealed at h ⊢
    dsimp only
    split at h
    · rename_i hb
      rw [if_pos hb]
      unfold setCell
      split
      · rfl
      · exact h
    · exact absurd h (by simp)
  · exact h

theorem reveal_room_revealedLe (m : Map) (i : Nat) : revealedLe m (m.reveal_room i) := by
  intro a b h
  unfold Map.reveal_room
  split
  · exact h
  · unfold Map.is_revealed at h ⊢
    dsimp only
    split at h
    · rename_i hb
      rw [if_pos hb]
      split
      · rfl
      · exact h
    · exact absurd h (by simp)

theorem reveal_surroundings_revealedLe (m : Map) (x y : Nat) :
    revealedLe m (m.reveal_surroundings x y) := by
  intro a b h
  unfold Map.reveal_surroundings
  unfold Map.is_revealed at h ⊢
  dsimp only
  split at h
  · rename_i hb
    rw [if_pos hb]
    split
    · rfl
    · exact h
  · exact absurd h (by simp)

theorem pickup_potion_revealedLe (m : Map) (x y : Nat) :
    revealedLe m (m.pickup_potion x y) := by
  intro a b h
  unfold Map.pickup_potion
  split
  · exact h
  · exact h

theorem revealedLe_step_reveal_at {m0 a : Map} (x y : Nat) (h : revealedLe m0 a) :
    revealedLe m0 (a.reveal_at x y) :=
  revealedLe_trans h (reveal_at_revealedLe a x y)

theorem revealedLe_step_reveal_room {m0 a : Map} (i : Nat) (h : revealedLe m0 a) :
    revealedLe m0 (a.reveal_room i) :=
  revealedLe_trans h (reveal_room_revealedLe a i)

theorem revealedLe_step_surroundings {m0 a : Map} (x y : Nat) (h : revealedLe m0 a) :
    revealedLe m0 (a.reveal_surroundings x y) :=
  revealedLe_trans h (reveal_surroundings_revealedLe a x y)

theorem revealedLe_step_pickup {m0 a : Map} (x y : Nat) (h : revealedLe m0 a) :
    revealedLe m0 (a.pickup_potion x y) :=
  revealedLe_trans h (pickup_potion_revealedLe a x y)

/-- The door-adjacency reveal loop only reveals. -/
theorem door_adj_reveal_revealedLe (m0 : Map) (nx ny : Nat) (m : Map) (h : revealedLe m0 m) :
    revealedLe m0 (door_adj_reveal nx ny m) := by
  unfold door_adj_reveal
  refine foldl_preserves (revealedLe m0) _ _ _ ?_ h
  intro a d ha
  dsimp only
  split
  · exact revealedLe_step_reveal_room _ ha
  · exact ha

/-- The reveal steps of a resolved move only reveal. -/
theorem move_map_vis_revealedLe (m : Map) (nx ny : Nat) :
    revealedLe m (move_map_vis m nx ny) := by
  unfold move_map_vis
  dsimp only
  split
  · exact revealedLe_step_surroundings _ _ (reveal_at_revealedLe _ _ _)
  · exact reveal_at_revealedLe _ _ _

/-- The full map bookkeeping of a resolved move only reveals (and converts
one potion tile, which does not change revealed state). -/
theorem move_map_update_revealedLe (m : Map) (nx ny : Nat) :
    revealedLe m (move_map_update m nx ny) := by
  have h2 : revealedLe m (move_map_vis m nx ny) := move_map_vis_revealedLe m nx ny
  unfold move_map_update
  dsimp only
  revert h2
  generalize move_map_vis m nx ny = M2
  intro h2
  have h3 : revealedLe m (if M2.is_potion nx ny = true then M2.pickup_potion nx ny else M2) := by
    split
    · exact revealedLe_step_pickup _ _ h2
    · exact h2
  revert h3
  generalize (if M2.is_potion nx ny = true then M2.pickup_potion nx ny else M2) = M3
  intro h3
  have h4 : revealedLe m (if M3.is_door nx ny = true then door_adj_reveal nx ny M3 else M3) := by
    split
    · exact door_adj_reveal_revealedLe _ _ _ _ h3
    · exact h3
  revert h4
  generalize (if M3.is_door nx ny = true then door_adj_reveal nx ny M3 else M3) = M4
  intro h4
  split
  · exact revealedLe_step_reveal_room _ h4
  · exact h4

/-- A resolved player move only reveals more of the map. -/
theorem handle_player_move_revealedLe (v : Int) (g : Game) (dx dy : Int) :
    revealedLe g.map (g.handle_player_move v dx dy).map := by
  unfold Game.handle_player_move
  dsimp only
  split
  · split
    · exact revealedLe_refl _
    · exact revealedLe_refl _
  · split
    · exact move_map_update_revealedLe _ _ _
    · exact revealedLe_refl _

/-- One enemy-loop iteration never touches the map. -/
theorem enemy_turn_step_map (vs : Nat → Int) (px py : Nat) (st : Game) (i : Nat) :
    (enemy_turn_step vs px py st i).map = st.map := by
  unfold enemy_turn_step
  split
  · rfl
  · split
    · rfl
    · dsimp only
      split
      · rfl
      · split
        · rfl
        · rfl

/-- The enemy phase never touches the map, in any processing order. -/
theorem enemy_turns_order_map (vs : Nat → Int) (order : List Nat) (g : Game) :
    (g.enemy_turns_order vs order).map = g.map := by
  unfold Game.enemy_turns_order
  refine foldl_preserves (fun st : Game => st.map = g.map) _ _ _ ?_ rfl
  intro a i ha
  rw [enemy_turn_step_map]
  exact ha

/-- The operations of claim C5 that can run on a live game: the direct
visibility mutators of the map, potion pickup, and the composite
movement / combat steps of the turn engine. -/
inductive GameOp where
  | revealAt (x y : Nat)
  | revealRoom (idx : Nat)
  | revealSurroundings (x y : Nat)
  | pickupPotion (x y : Nat)
  | playerMove (variance : Int) (dx dy : Int)
  | enemyPhase (variances : Nat → Int)

/-- Action of one operation on the game state. -/
def GameOp.apply (g : Game) : GameOp → Game
  | .revealAt x y => { g with map := g.map.reveal_at x y }
  | .revealRoom i => { g with map := g.map.reveal_room i }
  | .revealSurroundings x y => { g with map := g.map.reveal_surroundings x y }
  | .pickupPotion x y => { g with map := g.map.pickup_potion x y }
  | .playerMove v dx dy => g.handle_player_move v dx dy
  | .enemyPhase vs => g.enemy_turns vs

/-- Sequential application of operations. -/
def applyOps (g : Game) (ops : List GameOp) : Game :=
  ops.foldl GameOp.apply g

/-- Claim C5: the visibility state is monotonic — once `is_revealed`
returns true for a cell, no sequence of further operations (reveal calls,
potion pickup, player movement/combat turns, enemy phases) ever makes it
return false again. -/
theorem c5_visibility_monotonic (g : Game) (x y : Nat) (ops : List GameOp)
    (h : g.map.is_revealed x y = true) :
    (applyOps g ops).map.is_revealed x y = true := by
  unfold applyOps
  refine foldl_preserves (fun st : Game => st.map.is_revealed x y = true) _ _ _ ?_ h
  intro st op hst
  cases op with
  | revealAt a b => exact reveal_at_revealedLe st.map a b x y hst
  | revealRoom i => exact reveal_room_revealedLe st.map i x y hst
  | revealSurroundings a b => exact reveal_surroundings_revealedLe st.map a b x y hst
  | pickupPotion a b => exact pickup_potion_revealedLe st.map a b x y hst
  | playerMove v dx dy => exact handle_player_move_revealedLe v st dx dy x y hst
  | enemyPhase vs =>
      show (st.enemy_turns vs).map.is_revealed x y = true
      unfold Game.enemy_turns
      rw [enemy_turns_order_map]
      exact hst

/-- Concrete game for the C5 witness: cell (1,1) of a 3×3 map revealed. -/
def c5_game : Game :=
  { map := (Map.new 3 3).reveal_at 1 1, player := Player.new 1 1, enemies := [], messages := [] }

/-- Witness for C5: after a pickup, a room reveal, a blocked player move
and an enemy phase, cell (1,1) is still revealed. -/
theorem c5_witness :
    c5_game.map.is_revealed 1 1 = true ∧
    (applyOps c5_game
      [GameOp.pickupPotion 1 1, GameOp.revealRoom 0, GameOp.playerMove 0 1 0,
        GameOp.enemyPhase (fun _ => 0)]).map.is_revealed 1 1 = true :=
  ⟨by decide,
    c5_visibility_monotonic c5_game 1 1
      [GameOp.pickupPotion 1 1, GameOp.revealRoom 0, GameOp.playerMove 0 1 0,
        GameOp.enemyPhase (fun _ => 0)] (by decide)⟩

/-! ## Claim C6: attacking never moves the player -/

/-- What `Game::enemy_at` finding an index implies: that index holds a
live enemy at the queried cell. -/
theorem enemy_at_spec (g : Game) (x y : Nat) (idx : Nat) (h : g.enemy_at x y = some idx) :
    ∃ e : Enemy, g.enemies.get? idx = some e ∧ e.is_alive = true ∧ e.x = x ∧ e.y = y := by
  unfold Game.enemy_at at h
  rw [List.findIdx?_eq_some_iff_getElem] at h
  obtain ⟨hlen, hp, -⟩ := h
  simp only [Bool.and_eq_true, decide_eq_true_eq] at hp
  exact ⟨g.enemies.get ⟨idx, hlen⟩, List.get?_eq_get hlen, hp.1.1, hp.1.2, hp.2⟩

/-- Claim C6: when the player's directional step targets a cell occupied
by a live enemy, the step resolves as an attack only — the player, the
map, and every other enemy are unchanged, the targeted enemy changes at
most its HP, and the only other effect is one new log message. -/
theorem c6_attack_move_exclusive (variance : Int) (g : Game) (dx dy : Int) (idx : Nat)
    (h : g.enemy_at (usize_cast ((g.player.x : Int) + dx))
      (usize_cast ((g.player.y : Int) + dy)) = some idx) :
    (g.handle_player_move variance dx dy).player = g.player ∧
    (g.handle_player_move variance dx dy).map = g.map ∧
    (∀ j, j ≠ idx → (g.handle_player_move variance dx dy).enemies.get? j = g.enemies.get? j) ∧
    (∃ e e' : Enemy, g.enemies.get? idx = some e ∧
      (g.handle_player_move variance dx dy).enemies.get? idx = some e' ∧
      e'.x = e.x ∧ e'.y = e.y ∧ e'.max_hp = e.max_hp ∧ e'.power = e.power ∧
      e'.enemy_type = e.enemy_type) ∧
    (∃ msg : String, (g.handle_player_move variance dx dy).messages = add_message g.messages msg) := by
  obtain ⟨e, hge, halive, hex, hey⟩ := enemy_at_spec g _ _ idx h
  have hlen : idx < g.enemies.length := by
    rw [List.get?_eq_getElem?] at hge
    exact (List.getElem?_eq_some_iff.mp hge).1
  unfold Game.handle_player_move
  dsimp only
  rw [h]
  dsimp only
  rw [hge]
  dsimp only
  refine ⟨rfl, rfl, ?_, ?_, ?_⟩
  · intro j hj
    show (g.enemies.set idx _).get? j = g.enemies.get? j
    rw [List.get?_eq_getElem?, List.get?_eq_getElem?, List.getElem?_set_ne (Ne.symm hj)]
  · refine ⟨e, (player_attack variance g.player e).1, hge ▸ rfl, ?_, rfl, rfl, rfl, rfl, rfl⟩
    show (g.enemies.set idx _).get? idx = _
    rw [List.get?_eq_getElem?, List.getElem?_set_self hlen]
  · exact ⟨(player_attack variance g.player e).2.message, rfl⟩

/-- Concrete map for the C6 witness: a 5×3 map with a floor strip. -/
def c6_map : Map :=
  { width := 5, height := 3,
    tiles := fun y x => if y = 1 ∧ 1 ≤ x ∧ x ≤ 3 then Tile.Floor else Tile.Wall,
    rooms := [], revealed := fun _ _ => false }

/-- Concrete game for the C6 witness: player at (1,1), goblin at (2,1). -/
def c6_game : Game :=
  { map := c6_map, player := Player.new 1 1, enemies := [Enemy.goblin 2 1], messages := [] }

/-- Witness for C6: stepping right into the goblin attacks it and moves
nothing. -/
theorem c6_witness :
    c6_game.enemy_at (usize_cast ((c6_game.player.x : Int) + 1))
      (usize_cast ((c6_game.player.y : Int) + 0)) = some 0 ∧
    ((c6_game.handle_player_move 0 1 0).player = c6_game.player ∧
      (c6_game.handle_player_move 0 1 0).map = c6_game.map ∧
      (∀ j, j ≠ 0 → (c6_game.handle_player_move 0 1 0).enemies.get? j = c6_game.enemies.get? j) ∧
      (∃ e e' : Enemy, c6_game.enemies.get? 0 = some e ∧
        (c6_game.handle_player_move 0 1 0).enemies.get? 0 = some e' ∧
        e'.x = e.x ∧ e'.y = e.y ∧ e'.max_hp = e.max_hp ∧ e'.power = e.power ∧
        e'.enemy_type = e.enemy_type) ∧
      (∃ msg : String,
        (c6_game.handle_player_move 0 1 0).messages = add_message c6_game.messages msg)) :=
  ⟨by decide, c6_attack_move_exclusive 0 c6_game 1 0 0 (by decide)⟩

/-! ## Claim C1: enemy phase snapshots and ordering -/

/-- Unpacking `Enemy::position_occupied` returning false: the cell is not
the player's and holds no other live enemy of the list. -/
theorem position_occupied_false (x y : Nat) (es : List Enemy) (ex px py : Nat)
    (h : Enemy.position_occupied x y es ex px py = false) :
    ¬ (x = px ∧ y = py) ∧
      ∀ j ej, j ≠ ex → es.get? j = some ej → ej.is_alive = true → ¬ (ej.x = x ∧ ej.y = y) := by
  unfold Enemy.position_occupied at h
  split at h
  · exact absurd h (by simp)
  · rename_i hng
    refine ⟨hng, ?_⟩
    intro j ej hj hget hal hxy
    rw [List.any_eq_false] at h
    refine h (j, ej) ?_ ?_
    · rw [List.mk_mem_enum_iff_getElem?, ← List.get?_eq_getElem?]
      exact hget
    · simp only [Bool.and_eq_true, decide_eq_true_eq]
      exact ⟨⟨⟨hj, hal⟩, hxy.1⟩, hxy.2⟩

/-- Case analysis of `Enemy::move_toward`: stats are unchanged, and the
enemy either stays put or ends on a cell unoccupied with respect to the
enemy list it was given (in particular not the player's cell). -/
theorem move_toward_spec (e : Enemy) (tx ty : Nat) (m : Map) (es : List Enemy) (i : Nat)
    (px py : Nat) :
    (e.move_toward tx ty m es i px py).hp = e.hp ∧
    (e.move_toward tx ty m es i px py).max_hp = e.max_hp ∧
    (e.move_toward tx ty m es i px py).power = e.power ∧
    (e.move_toward tx ty m es i px py).enemy_type = e.enemy_type ∧
    (((e.move_toward tx ty m es i px py).x = e.x ∧ (e.move_toward tx ty m es i px py).y = e.y) ∨
      Enemy.position_occupied (e.move_toward tx ty m es i px py).x
        (e.move_toward tx ty m es i px py).y es i px py = false) := by
  unfold Enemy.move_toward
  dsimp only
  split
  · rename_i hc
    exact ⟨rfl, rfl, rfl, rfl, Or.inr hc.2⟩
  · split
    · rename_i hc
      exact ⟨rfl, rfl, rfl, rfl, Or.inr hc.2.2⟩
    · split
      · rename_i hc
        exact ⟨rfl, rfl, rfl, rfl, Or.inr hc.2.2⟩
      · exact ⟨rfl, rfl, rfl, rfl, Or.inl ⟨rfl, rfl⟩⟩

/-- No two live enemies share a cell, and no live enemy is on the cell
`(px, py)`. -/
def no_overlap (es : List Enemy) (px py : Nat) : Prop :=
  (∀ i j ei ej, i ≠ j → es.get? i = some ei → es.get? j = some ej →
    ei.is_alive = true → ej.is_alive = true → ¬ (ei.x = ej.x ∧ ei.y = ej.y)) ∧
  (∀ i ei, es.get? i = some ei → ei.is_alive = true → ¬ (ei.x = px ∧ ei.y = py))

/-- Bounded (decidable) sufficient condition for `no_overlap`. -/
theorem no_overlap_of_getElem (es : List Enemy) (px py : Nat)
    (h1 : ∀ i, ∀ hi : i < es.length, ∀ j, ∀ hj : j < es.length, i ≠ j →
      (es.get ⟨i, hi⟩).is_alive = true → (es.get ⟨j, hj⟩).is_alive = true →
      ¬ ((es.get ⟨i, hi⟩).x = (es.get ⟨j, hj⟩).x ∧ (es.get ⟨i, hi⟩).y = (es.get ⟨j, hj⟩).y))
    (h2 : ∀ i, ∀ hi : i < es.length, (es.get ⟨i, hi⟩).is_alive = true →
      ¬ ((es.get ⟨i, hi⟩).x = px ∧ (es.get ⟨i, hi⟩).y = py)) :
    no_overlap es px py := by
  constructor
  · intro i j ei ej hij hgi hgj
    rw [List.get?_eq_some] at hgi hgj
    obtain ⟨hi, hei⟩ := hgi
    obtain ⟨hj, hej⟩ := hgj
    subst hei
    subst hej
    exact h1 i hi j hj hij
  · intro i ei hgi
    rw [List.get?_eq_some] at hgi
    obtain ⟨hi, hei⟩ := hgi
    subst hei
    exact h2 i hi

/-- One enemy-loop iteration preserves the player's position. -/
theorem enemy_turn_step_player_pos (vs : Nat → Int) (px py : Nat) (st : Game) (i : Nat) :
    (enemy_turn_step vs px py st i).player.x = st.player.x ∧
    (enemy_turn_step vs px py st i).player.y = st.player.y := by
  unfold enemy_turn_step
  split
  · exact ⟨rfl, rfl⟩
  · split
    · exact ⟨rfl, rfl⟩
    · dsimp only
      split
      · exact ⟨rfl, rfl⟩
      · split
        · exact ⟨rfl, rfl⟩
        · exact ⟨rfl, rfl⟩

/-- One enemy-loop iteration preserves `no_overlap` with respect to the
player position it is passed. -/
theorem enemy_turn_step_no_overlap (vs : Nat → Int) (px py : Nat) (st : Game) (i : Nat)
    (hno : no_overlap st.enemies px py) :
    no_overlap (enemy_turn_step vs px py st i).enemies px py := by
  unfold enemy_turn_step
  split
  · exact hno
  · rename_i e heq
    split
    · exact hno
    · dsimp only
      split
      · exact hno
      · split
        · -- chase: the enemy may move, checked against the current list
          obtain ⟨hhp, -, -, -, hpos⟩ := move_toward_spec e px py st.map st.enemies i px py
          have hilen : i < st.enemies.length := by
            rw [List.get?_eq_getElem?] at heq
            exact (List.getElem?_eq_some_iff.mp heq).1
          have haliveMT : (e.move_toward px py st.map st.enemies i px py).is_alive =
              e.is_alive := by
            unfold Enemy.is_alive
            rw [hhp]
          show no_overlap (st.enemies.set i _) px py
          constructor
          · intro a b ea eb hab hga hgb hala halb
            by_cases hai : a = i
            · subst hai
              rw [List.get?_eq_getElem?, List.getElem?_set_self hilen,
                Option.some_inj] at hga
              rw [List.get?_eq_getElem?, List.getElem?_set_ne hab,
                ← List.get?_eq_getElem?] at hgb
              subst hga
              rcases hpos with ⟨hmx, hmy⟩ | hocc
              · rw [hmx, hmy]
                have halaE : e.is_alive = true := haliveMT ▸ hala
                exact hno.1 a b e eb hab heq hgb halaE halb
              · obtain ⟨-, hother⟩ := position_occupied_false _ _ _ _ _ _ hocc
                intro hc
                exact hother b eb (Ne.symm hab) hgb halb ⟨hc.1.symm, hc.2.symm⟩
            · by_cases hbi : b = i
              · subst hbi
                rw [List.get?_eq_getElem?, List.getElem?_set_self hilen,
                  Option.some_inj] at hgb
                rw [List.get?_eq_getElem?, List.getElem?_set_ne (Ne.symm hai),
                  ← List.get?_eq_getElem?] at hga
                subst hgb
                rcases hpos with ⟨hmx, hmy⟩ | hocc
                · rw [hmx, hmy]
                  have halbE : e.is_alive = true := haliveMT ▸ halb
                  exact hno.1 a b ea e hab hga heq hala halbE
                · obtain ⟨-, hother⟩ := position_occupied_false _ _ _ _ _ _ hocc
                  exact hother a ea hai hga hala
              · rw [List.get?_eq_getElem?, List.getElem?_set_ne (Ne.symm hai),
                  ← List.get?_eq_getElem?] at hga
                rw [List.get?_eq_getElem?, List.getElem?_set_ne (Ne.symm hbi),
                  ← List.get?_eq_getElem?] at hgb
                exact hno.1 a b ea eb hab hga hgb hala halb
          · intro a ea hga hala
            by_cases hai : a = i
            · subst hai
              rw [List.get?_eq_getElem?, List.getElem?_set_self hilen,
                Option.some_inj] at hga
              subst hga
              rcases hpos with ⟨hmx, hmy⟩ | hocc
              · rw [hmx, hmy]
                have halaE : e.is_alive = true := haliveMT ▸ hala
                exact hno.2 a e heq halaE
              · exact (position_occupied_false _ _ _ _ _ _ hocc).1
            · rw [List.get?_eq_getElem?, List.getElem?_set_ne (Ne.symm hai),
                ← List.get?_eq_getElem?] at hga
              exact hno.2 a ea hga hala
        · exact hno

/-- Concrete map for the C1 counterexample: a one-tile-wide corridor. -/
def c1_map : Map :=
  { width := 8, height := 3,
    tiles := fun y x => if y = 1 ∧ 1 ≤ x ∧ x ≤ 6 then Tile.Floor else Tile.Wall,
    rooms := [], revealed := fun _ _ => false }

/-- Concrete game for the C1 counterexample: player at (1,1), goblins at
(3,1) and (4,1), both within chase range. -/
def c1_game : Game :=
  { map := c1_map, player := Player.new 1 1,
    enemies := [Enemy.goblin 3 1, Enemy.goblin 4 1], messages := [] }

/-- Claim C1 counterexample: the collision snapshot is re-taken for each
enemy (src/main.rs line 154 clones the live list inside the loop), so the
phase is not order-independent: processing order `[0, 1]` (the code's
order) lets the rear goblin advance to (3,1), while the permuted order
`[1, 0]` leaves it blocked at (4,1) — different final position sets. -/
theorem c1_counterexample :
    List.Perm [1, 0] (List.range c1_game.enemies.length) ∧
    (3, 1) ∈ (c1_game.enemy_turns (fun _ => 0)).enemies.map (fun e => (e.x, e.y)) ∧
    (3, 1) ∉ (c1_game.enemy_turns_order (fun _ => 0) [1, 0]).enemies.map
      (fun e => (e.x, e.y)) := by
  refine ⟨by decide, by decide, by decide⟩

/-- Claim C1 (amended): each enemy's collision checks are evaluated
against a fresh snapshot of the live enemy list taken at that enemy's own
turn, so earlier moves in the phase are visible to later enemies and the
final positions can depend on the processing order; nevertheless, for any
processing order, if no two live enemies share a cell and no live enemy
stands on the player's cell before the phase, the same holds after it,
and the player's position is unchanged by the phase. -/
theorem c1_enemy_phase_no_collision (g : Game) (vs : Nat → Int) (order : List Nat)
    (h : no_overlap g.enemies g.player.x g.player.y) :
    (g.enemy_turns_order vs order).player.x = g.player.x ∧
    (g.enemy_turns_order vs order).player.y = g.player.y ∧
    no_overlap (g.enemy_turns_order vs order).enemies g.player.x g.player.y := by
  unfold Game.enemy_turns_order
  refine foldl_preserves (fun st : Game => st.player.x = g.player.x ∧
    st.player.y = g.player.y ∧ no_overlap st.enemies g.player.x g.player.y) _ _ _ ?_
    ⟨rfl, rfl, h⟩
  intro st i hst
  obtain ⟨hx, hy, hno⟩ := hst
  have hp := enemy_turn_step_player_pos vs g.player.x g.player.y st i
  exact ⟨hp.1.trans hx, hp.2.trans hy,
    enemy_turn_step_no_overlap vs g.player.x g.player.y st i hno⟩

/-- Witness for C1's amended theorem at the counterexample game, permuted
order. -/
theorem c1_witness :
    no_overlap c1_game.enemies c1_game.player.x c1_game.player.y ∧
    ((c1_game.enemy_turns_order (fun _ => 0) [1, 0]).player.x = c1_game.player.x ∧
      (c1_game.enemy_turns_order (fun _ => 0) [1, 0]).player.y = c1_game.player.y ∧
      no_overlap (c1_game.enemy_turns_order (fun _ => 0) [1, 0]).enemies
        c1_game.player.x c1_game.player.y) :=
  ⟨no_overlap_of_getElem _ _ _ (by decide) (by decide),
    c1_enemy_phase_no_collision c1_game (fun _ => 0) [1, 0]
      (no_overlap_of_getElem _ _ _ (by decide) (by decide))⟩

/-! ## Claim C10: the first candidate room is always accepted -/

theorem head?_append_left {α : Type} {l l' : List α} {a : α} (h : l.head? = some a) :
    (l ++ l').head? = some a := by
  cases l with
  | nil => exact absurd h (by simp)
  | cons x xs => exact h

/-- One attempt preserves the identity of the first accepted room. -/
theorem generate_attempt_head (mins maxs : Nat) (mr : Map × Rng) (r0 : Room)
    (h : mr.1.rooms.head? = some r0) :
    (Map.generate_attempt mins maxs mr).1.rooms.head? = some r0 := by
  rcases generate_attempt_rooms mins maxs mr with hsame | ⟨nr', hext, -⟩
  · rw [hsame]
    exact h
  · rw [hext]
    exact head?_append_left h

/-- Claim C10: for `generate` with room count at least 1 on a grid whose
width and height both exceed `max_size + 2` (and a sensible size range,
as the program uses), the first candidate room is accepted for every
random stream — the accepted list is never empty — and `player_spawn`
returns the center of the first accepted room, never the grid-center
fallback. -/
theorem c10_first_candidate_always_accepted (w h nr mins maxs : Nat) (rng : Rng)
    (hnr : 1 ≤ nr) (hmm : mins ≤ maxs) (hw : maxs + 2 < w) (hh : maxs + 2 < h) :
    ((Map.new w h).generate nr mins maxs rng).1.rooms ≠ [] ∧
    ∃ r0 : Room, ((Map.new w h).generate nr mins maxs rng).1.rooms.head? = some r0 ∧
      ((Map.new w h).generate nr mins maxs rng).1.player_spawn = r0.center := by
  have hfuel : ∃ k, nr * 10 = k + 1 := ⟨nr * 10 - 1, by omega⟩
  obtain ⟨k, hk⟩ := hfuel
  have hhead : ∃ r0 : Room,
      (Map.generate_loop nr mins maxs (nr * 10) (Map.new w h, rng)).1.rooms.head? = some r0 := by
    rw [hk]
    show ∃ r0 : Room, (Map.generate_loop nr mins maxs (k + 1) (Map.new w h, rng)).1.rooms.head? =
      some r0
    unfold Map.generate_loop
    rw [if_neg (by simp [Map.new]; omega)]
    set c := gen_candidate mins maxs (Map.new w h) rng with hc
    have hstep : (Map.generate_attempt mins maxs (Map.new w h, rng)).1.rooms.head? =
        some c.1 := by
      unfold Map.generate_attempt
      rw [if_neg (by simp [Map.new])]
      rw [accept_room_rooms]
      rfl
    refine ⟨c.1, ?_⟩
    exact generate_loop_inv nr mins maxs
      (fun mr => mr.1.rooms.head? = some c.1)
      (fun mr hmr => generate_attempt_head mins maxs mr c.1 hmr) k _ hstep
  obtain ⟨r0, hr0⟩ := hhead
  have hrooms : ((Map.new w h).generate nr mins maxs rng).1.rooms =
      (Map.generate_loop nr mins maxs (nr * 10) (Map.new w h, rng)).1.rooms := by
    unfold Map.generate
    have hd := place_doors_frame (Map.generate_loop nr mins maxs (nr * 10) (Map.new w h, rng)).1
    have hp := place_potions_frame
      (Map.generate_loop nr mins maxs (nr * 10) (Map.new w h, rng)).1.place_doors
      (Map.generate_loop nr mins maxs (nr * 10) (Map.new w h, rng)).2
    rw [hp.2.2.1, hd.2.2.1]
  constructor
  · rw [hrooms]
    intro hnil
    rw [hnil] at hr0
    exact absurd hr0 (by simp)
  · refine ⟨r0, by rw [hrooms]; exact hr0, ?_⟩
    unfold Map.player_spawn
    rw [hrooms, hr0]

/-- Witness for C10 at the program's constants and the all-zero stream. -/
theorem c10_witness :
    (1 ≤ NUM_ROOMS ∧ MIN_ROOM_SIZE ≤ MAX_ROOM_SIZE ∧ MAX_ROOM_SIZE + 2 < MAP_WIDTH ∧
      MAX_ROOM_SIZE + 2 < MAP_HEIGHT) ∧
    (((Map.new MAP_WIDTH MAP_HEIGHT).generate NUM_ROOMS MIN_ROOM_SIZE MAX_ROOM_SIZE
        ⟨fun _ => 0, 0⟩).1.rooms ≠ [] ∧
      ∃ r0 : Room, ((Map.new MAP_WIDTH MAP_HEIGHT).generate NUM_ROOMS MIN_ROOM_SIZE MAX_ROOM_SIZE
          ⟨fun _ => 0, 0⟩).1.rooms.head? = some r0 ∧
        ((Map.new MAP_WIDTH MAP_HEIGHT).generate NUM_ROOMS MIN_ROOM_SIZE MAX_ROOM_SIZE
          ⟨fun _ => 0, 0⟩).1.player_spawn = r0.center) :=
  ⟨⟨by decide, by decide, by decide, by decide⟩,
    c10_first_candidate_always_accepted MAP_WIDTH MAP_HEIGHT NUM_ROOMS MIN_ROOM_SIZE
      MAX_ROOM_SIZE ⟨fun _ => 0, 0⟩ (by decide) (by decide) (by decide) (by decide)⟩

/-! ## Claim C3: walkable connectivity of the generated dungeon -/

/-- One 4-neighbour step onto a walkable cell. -/
def Map.adjStep (m : Map) (p q : Nat × Nat) : Prop :=
  m.is_walkable q.1 q.2 = true ∧
  ((q.1 = p.1 + 1 ∧ q.2 = p.2) ∨ (p.1 = q.1 + 1 ∧ q.2 = p.2) ∨
   (q.2 = p.2 + 1 ∧ q.1 = p.1) ∨ (p.2 = q.2 + 1 ∧ q.1 = p.1))

/-- Reachability by walkable tiles only: the start cell is walkable and a
chain of 4-neighbour steps through walkable cells leads to the target. -/
def Map.reachable (m : Map) (p q : Nat × Nat) : Prop :=
  m.is_walkable p.1 p.2 = true ∧ Relation.ReflTransGen m.adjStep p q

/-- Arithmetic characterization of walkability. -/
theorem is_walkable_iff (m : Map) (x y : Nat) :
    m.is_walkable x y = true ↔ y < m.height ∧ x < m.width ∧ m.tiles y x ≠ Tile.Wall := by
  unfold Map.is_walkable Map.get_tile
  split
  · rename_i t ht
    split at ht
    · rename_i hb
      rw [Option.some_inj] at ht
      subst ht
      cases htile : m.tiles y x <;> simp [Tile.is_walkable, htile, hb.1, hb.2]
    · exact absurd ht (by simp)
  · rename_i ht
    split at ht
    · exact absurd ht (by simp)
    · rename_i hb
      constructor
      · intro hcon
        exact absurd hcon (by simp)
      · intro hcon
        exact absurd ⟨hcon.1, hcon.2.1⟩ hb

/-- Pointwise ordering on walkability. -/
def walkLe (m m' : Map) : Prop :=
  ∀ x y : Nat, m.is_walkable x y = true → m'.is_walkable x y = true

theorem walkLe_refl (m : Map) : walkLe m m :=
  fun _ _ h => h

theorem walkLe_trans {a b c : Map} (h1 : walkLe a b) (h2 : walkLe b c) : walkLe a c :=
  fun x y h => h2 x y (h1 x y h)

/-- Reachability is monotone under walkability. -/
theorem reachable_mono {m m' : Map} (hw : walkLe m m') {p q : Nat × Nat}
    (h : Relation.ReflTransGen m.adjStep p q) : Relation.ReflTransGen m'.adjStep p q := by
  refine Relation.ReflTransGen.mono ?_ h
  intro a b hab
  exact ⟨hw _ _ hab.1, hab.2⟩

theorem carve_room_walkLe (m : Map) (r : Room) : walkLe m (m.carve_room r) := by
  intro x y h
  rw [is_walkable_iff] at h
  rw [is_walkable_iff]
  unfold Map.carve_room
  dsimp only
  refine ⟨h.1, h.2.1, ?_⟩
  split
  · simp
  · exact h.2.2

theorem carve_horizontal_walkLe (m : Map) (x1 x2 y : Nat) :
    walkLe m (m.carve_horizontal_corridor x1 x2 y) := by
  intro a b h
  rw [is_walkable_iff] at h
  rw [is_walkable_iff]
  unfold Map.carve_horizontal_corridor
  dsimp only
  refine ⟨h.1, h.2.1, ?_⟩
  split
  · simp
  · exact h.2.2

theorem carve_vertical_walkLe (m : Map) (y1 y2 x : Nat) :
    walkLe m (m.carve_vertical_corridor y1 y2 x) := by
  intro a b h
  rw [is_walkable_iff] at h
  rw [is_walkable_iff]
  unfold Map.carve_vertical_corridor
  dsimp only
  refine ⟨h.1, h.2.1, ?_⟩
  split
  · simp
  · exact h.2.2

/-- Cells of a carved room are walkable. -/
theorem carve_room_walkable (m : Map) (r : Room) (x y : Nat)
    (hx : r.x ≤ x) (hx2 : x < r.x + r.width) (hy : r.y ≤ y) (hy2 : y < r.y + r.height)
    (hxb : x < m.width) (hyb : y < m.height) :
    (m.carve_room r).is_walkable x y = true := by
  rw [is_walkable_iff]
  refine ⟨hyb, hxb, ?_⟩
  unfold Map.carve_room
  dsimp only
  rw [if_pos ⟨hy, hy2, hx, hx2⟩]
  simp

/-- Cells of a horizontal corridor segment are walkable after carving. -/
theorem carve_horizontal_walkable (m : Map) (x1 x2 y x : Nat)
    (hx1 : min x1 x2 ≤ x) (hx2 : x ≤ max x1 x2) (hyb : y < m.height) (hxb : x < m.width) :
    (m.carve_horizontal_corridor x1 x2 y).is_walkable x y = true := by
  rw [is_walkable_iff]
  refine ⟨hyb, hxb, ?_⟩
  unfold Map.carve_horizontal_corridor
  dsimp only
  split
  · simp
  · rename_i hcond
    intro hwall
    exact hcond ⟨rfl, hx1, hx2, hyb, hxb, hwall⟩

/-- Cells of a vertical corridor segment are walkable after carving. -/
theorem carve_vertical_walkable (m : Map) (y1 y2 x y : Nat)
    (hy1 : min y1 y2 ≤ y) (hy2 : y ≤ max y1 y2) (hyb : y < m.height) (hxb : x < m.width) :
    (m.carve_vertical_corridor y1 y2 x).is_walkable x y = true := by
  rw [is_walkable_iff]
  refine ⟨hyb, hxb, ?_⟩
  unfold Map.carve_vertical_corridor
  dsimp only
  split
  · simp
  · rename_i hcond
    intro hwall
    exact hcond ⟨rfl, hy1, hy2, hyb, hxb, hwall⟩

/-- Walk rightward along a walkable horizontal segment. -/
theorem steps_right (m : Map) (y a : Nat) :
    ∀ d : Nat, (∀ k, k ≤ d → m.is_walkable (a + k) y = true) →
      Relation.ReflTransGen m.adjStep (a, y) (a + d, y) := by
  intro d
  induction d with
  | zero => exact fun _ => .refl
  | succ n ih =>
      intro hw
      refine Relation.ReflTransGen.tail (ih fun k hk => hw k (by omega)) ?_
      exact ⟨hw (n + 1) (by omega), Or.inl ⟨rfl, rfl⟩⟩

/-- Walk leftward along a walkable horizontal segment. -/
theorem steps_left (m : Map) (y a : Nat) :
    ∀ d : Nat, (∀ k, k ≤ d → m.is_walkable (a + k) y = true) →
      Relation.ReflTransGen m.adjStep (a + d, y) (a, y) := by
  intro d
  induction d with
  | zero => exact fun _ => .refl
  | succ n ih =>
      intro hw
      refine Relation.ReflTransGen.head ?_ (ih fun k hk => hw k (by omega))
      exact ⟨hw n (by omega), Or.inr (Or.inl ⟨rfl, rfl⟩)⟩

/-- Walk downward along a walkable vertical segment. -/
theorem steps_down (m : Map) (x a : Nat) :
    ∀ d : Nat, (∀ k, k ≤ d → m.is_walkable x (a + k) = true) →
      Relation.ReflTransGen m.adjStep (x, a) (x, a + d) := by
  intro d
  induction d with
  | zero => exact fun _ => .refl
  | succ n ih =>
      intro hw
      refine Relation.ReflTransGen.tail (ih fun k hk => hw k (by omega)) ?_
      exact ⟨hw (n + 1) (by omega), Or.inr (Or.inr (Or.inl ⟨rfl, rfl⟩))⟩

/-- Walk upward along a walkable vertical segment. -/
theorem steps_up (m : Map) (x a : Nat) :
    ∀ d : Nat, (∀ k, k ≤ d → m.is_walkable x (a + k) = true) →
      Relation.ReflTransGen m.adjStep (x, a + d) (x, a) := by
  intro d
  induction d with
  | zero => exact fun _ => .refl
  | succ n ih =>
      intro hw
      refine Relation.ReflTransGen.head ?_ (ih fun k hk => hw k (by omega))
      exact ⟨hw n (by omega), Or.inr (Or.inr (Or.inr ⟨rfl, rfl⟩))⟩

/-- Walk between any two cells of a walkable horizontal segment. -/
theorem horizontal_path (m : Map) (y x1 x2 : Nat)
    (hw : ∀ x, min x1 x2 ≤ x → x ≤ max x1 x2 → m.is_walkable x y = true) :
    Relation.ReflTransGen m.adjStep (x1, y) (x2, y) := by
  rcases Nat.le_total x1 x2 with hle | hle
  · have h := steps_right m y x1 (x2 - x1) (fun k hk => hw (x1 + k) (by omega) (by omega))
    rw [Nat.add_sub_cancel' hle] at h
    exact h
  · have h := steps_left m y x2 (x1 - x2) (fun k hk => hw (x2 + k) (by omega) (by omega))
    rw [Nat.add_sub_cancel' hle] at h
    exact h

/-- Walk between any two cells of a walkable vertical segment. -/
theorem vertical_path (m : Map) (x y1 y2 : Nat)
    (hw : ∀ y, min y1 y2 ≤ y → y ≤ max y1 y2 → m.is_walkable x y = true) :
    Relation.ReflTransGen m.adjStep (x, y1) (x, y2) := by
  rcases Nat.le_total y1 y2 with hle | hle
  · have h := steps_down m x y1 (y2 - y1) (fun k hk => hw (y1 + k) (by omega) (by omega))
    rw [Nat.add_sub_cancel' hle] at h
    exact h
  · have h := steps_up m x y2 (y1 - y2) (fun k hk => hw (y2 + k) (by omega) (by omega))
    rw [Nat.add_sub_cancel' hle] at h
    exact h

theorem doorStep_walkLe (cx cy : Nat) (ps : List (Nat × Nat)) (m : Map) :
    walkLe m (doorStep cx cy ps m) := by
  intro a b h
  unfold doorStep
  split
  · rw [is_walkable_iff] at h
    rw [is_walkable_iff]
    refine ⟨h.1, h.2.1, ?_⟩
    unfold setCell
    dsimp only
    split
    · simp
    · exact h.2.2
  · exact h

theorem doors_top_walkLe (m : Map) (room : Room) : walkLe m (m.doors_top room) := by
  unfold Map.doors_top edgeFold
  refine foldl_preserves (walkLe m) _ _ _ ?_ (walkLe_refl m)
  intro a b ha
  split
  · exact walkLe_trans ha (doorStep_walkLe _ _ _ a)
  · exact ha

theorem doors_bottom_walkLe (m : Map) (room : Room) : walkLe m (m.doors_bottom room) := by
  unfold Map.doors_bottom edgeFold
  refine foldl_preserves (walkLe m) _ _ _ ?_ (walkLe_refl m)
  intro a b ha
  split
  · exact walkLe_trans ha (doorStep_walkLe _ _ _ a)
  · exact ha

theorem doors_left_walkLe (m : Map) (room : Room) : walkLe m (m.doors_left room) := by
  unfold Map.doors_left edgeFold
  refine foldl_preserves (walkLe m) _ _ _ ?_ (walkLe_refl m)
  intro a b ha
  split
  · exact walkLe_trans ha (doorStep_walkLe _ _ _ a)
  · exact ha

theorem doors_right_walkLe (m : Map) (room : Room) : walkLe m (m.doors_right room) := by
  unfold Map.doors_right edgeFold
  refine foldl_preserves (walkLe m) _ _ _ ?_ (walkLe_refl m)
  intro a b ha
  split
  · exact walkLe_trans ha (doorStep_walkLe _ _ _ a)
  · exact ha

/-- The door pass never removes walkability (Corridor cells become Door,
which is walkable). -/
theorem place_doors_walkLe (m : Map) : walkLe m m.place_doors := by
  unfold Map.place_doors
  refine foldl_preserves (walkLe m) _ _ _ ?_ (walkLe_refl m)
  intro a b ha
  unfold Map.place_doors_room
  exact walkLe_trans (walkLe_trans (walkLe_trans (walkLe_trans ha (doors_top_walkLe a b))
    (doors_bottom_walkLe _ b)) (doors_left_walkLe _ b)) (doors_right_walkLe _ b)

theorem place_potion_room_walkLe (m : Map) (mr : Map × Rng) (room : Room)
    (h : walkLe m mr.1) : walkLe m (Map.place_potion_room mr room).1 := by
  simp only [Map.place_potion_room]
  split
  · split
    · intro a b hw
      have hww := h a b hw
      rw [is_walkable_iff] at hww
      rw [is_walkable_iff]
      refine ⟨hww.1, hww.2.1, ?_⟩
      unfold setCell
      dsimp only
      split
      · simp
      · exact hww.2.2
    · exact h
  · exact h

/-- The potion pass never removes walkability (Floor cells become Potion,
which is walkable). -/
theorem place_potions_walkLe (m : Map) (rng : Rng) : walkLe m (m.place_potions rng).1 := by
  unfold Map.place_potions
  refine foldl_preserves (fun x : Map × Rng => walkLe m x.1) _ _ _ ?_ (walkLe_refl m)
  intro a b ha
  exact place_potion_room_walkLe m a b ha

/-- Bounds of `gen_range(lo..=hi)`. -/
theorem genRangeIncl_bounds (lo hi n : Nat) (h : lo ≤ hi) :
    lo ≤ genRangeIncl lo hi n ∧ genRangeIncl lo hi n ≤ hi := by
  unfold genRangeIncl
  have := Nat.mod_lt n (y := hi + 1 - lo) (by omega)
  omega

/-- Bounds of `gen_range(lo..hi)`. -/
theorem genRangeExcl_bounds (lo hi n : Nat) (h : lo < hi) :
    lo ≤ genRangeExcl lo hi n ∧ genRangeExcl lo hi n < hi := by
  unfold genRangeExcl
  have := Nat.mod_lt n (y := hi - lo) (by omega)
  omega

/-- A room that fits strictly inside the grid border, with positive size. -/
def room_in_bounds (W H : Nat) (r : Room) : Prop :=
  1 ≤ r.x ∧ r.x + r.width + 1 ≤ W ∧ 1 ≤ r.y ∧ r.y + r.height + 1 ≤ H ∧
  1 ≤ r.width ∧ 1 ≤ r.height

/-- The center of a positively sized room lies in its interior. -/
theorem center_in_room (r : Room) (hw : 1 ≤ r.width) (hh : 1 ≤ r.height) :
    r.x ≤ r.center.1 ∧ r.center.1 < r.x + r.width ∧
    r.y ≤ r.center.2 ∧ r.center.2 < r.y + r.height := by
  unfold Room.center
  dsimp only
  omega

/-- Every candidate drawn by `gen_candidate` fits strictly inside the
border, for any stream, whenever the size range is sensible and the grid
is large enough. -/
theorem gen_candidate_in_bounds (mins maxs : Nat) (m : Map) (rng : Rng)
    (h1 : 1 ≤ mins) (h2 : mins ≤ maxs) (hw : maxs + 2 < m.width) (hh : maxs + 2 < m.height) :
    room_in_bounds m.width m.height (gen_candidate mins maxs m rng).1 := by
  unfold gen_candidate
  dsimp only
  have hrw := genRangeIncl_bounds mins maxs rng.next.1 h2
  have hrh := genRangeIncl_bounds mins maxs rng.next.2.next.1 h2
  have hx := genRangeExcl_bounds 1 (m.width - genRangeIncl mins maxs rng.next.1 - 1)
    rng.next.2.next.2.next.1 (by omega)
  have hy := genRangeExcl_bounds 1 (m.height - genRangeIncl mins maxs rng.next.2.next.1 - 1)
    rng.next.2.next.2.next.2.next.1 (by omega)
  unfold room_in_bounds
  dsimp only
  refine ⟨?_, ?_, ?_, ?_, ?_, ?_⟩ <;> omega

theorem carve_room_rooms (m : Map) (r : Room) : (m.carve_room r).rooms = m.rooms := rfl

theorem carve_horizontal_rooms (m : Map) (a b c : Nat) :
    (m.carve_horizontal_corridor a b c).rooms = m.rooms := rfl

theorem carve_vertical_rooms (m : Map) (a b c : Nat) :
    (m.carve_vertical_corridor a b c).rooms = m.rooms := rfl

/-- Both orientations of the L-shaped corridor connect the two endpoints
once carved, for any base map. -/
theorem corridor_chain (mBase : Map) (W H : Nat) (hW : mBase.width = W) (hH : mBase.height = H)
    (pcx pcy ccx ccy : Nat)
    (hpcx : pcx + 1 < W) (hccx : ccx + 1 < W) (hpcy : pcy + 1 < H) (hccy : ccy + 1 < H) :
    Relation.ReflTransGen
      ((mBase.carve_horizontal_corridor pcx ccx pcy).carve_vertical_corridor pcy ccy ccx).adjStep
      (pcx, pcy) (ccx, ccy) ∧
    Relation.ReflTransGen
      ((mBase.carve_vertical_corridor pcy ccy pcx).carve_horizontal_corridor pcx ccx ccy).adjStep
      (pcx, pcy) (ccx, ccy) := by
  constructor
  · refine Relation.ReflTransGen.trans
      (horizontal_path _ pcy pcx ccx ?_) (vertical_path _ ccx pcy ccy ?_)
    · intro x hx1 hx2
      refine carve_vertical_walkLe _ pcy ccy ccx x pcy ?_
      exact carve_horizontal_walkable mBase pcx ccx pcy x hx1 hx2
        (show pcy < mBase.height by omega) (show x < mBase.width by omega)
    · intro y hy1 hy2
      exact carve_vertical_walkable (mBase.carve_horizontal_corridor pcx ccx pcy)
        pcy ccy ccx y hy1 hy2
        (show y < (mBase.carve_horizontal_corridor pcx ccx pcy).height by
          show y < mBase.height
          omega)
        (show ccx < (mBase.carve_horizontal_corridor pcx ccx pcy).width by
          show ccx < mBase.width
          omega)
  · refine Relation.ReflTransGen.trans
      (vertical_path _ pcx pcy ccy ?_) (horizontal_path _ ccy pcx ccx ?_)
    · intro y hy1 hy2
      refine carve_horizontal_walkLe _ pcx ccx ccy pcx y ?_
      exact carve_vertical_walkable mBase pcy ccy pcx y hy1 hy2
        (show y < mBase.height by omega) (show pcx < mBase.width by omega)
    · intro x hx1 hx2
      exact carve_horizontal_walkable (mBase.carve_vertical_corridor pcy ccy pcx)
        pcx ccx ccy x hx1 hx2
        (show ccy < (mBase.carve_vertical_corridor pcy ccy pcx).height by
          show ccy < mBase.height
          omega)
        (show x < (mBase.carve_vertical_corridor pcy ccy pcx).width by
          show x < mBase.width
          omega)

/-- Accepting a candidate preserves the generation invariant: rooms stay
in bounds, room interiors stay walkable, and every accepted room's center
stays reachable from the first accepted room's center. -/
theorem accept_room_inv (W H : Nat) (m : Map) (rng : Rng) (c : Room)
    (hW : m.width = W) (hH : m.height = H)
    (hcb : room_in_bounds W H c)
    (hrb : ∀ r ∈ m.rooms, room_in_bounds W H r)
    (hwalk : ∀ r ∈ m.rooms, ∀ x y, r.x ≤ x → x < r.x + r.width → r.y ≤ y → y < r.y + r.height →
      m.is_walkable x y = true)
    (hreach : ∀ r ∈ m.rooms, ∀ r0 ∈ m.rooms.head?,
      Relation.ReflTransGen m.adjStep r0.center r.center) :
    (m.accept_room rng c).1.width = W ∧ (m.accept_room rng c).1.height = H ∧
    (∀ r ∈ (m.accept_room rng c).1.rooms, room_in_bounds W H r) ∧
    (∀ r ∈ (m.accept_room rng c).1.rooms, ∀ x y, r.x ≤ x → x < r.x + r.width → r.y ≤ y →
      y < r.y + r.height → (m.accept_room rng c).1.is_walkable x y = true) ∧
    (∀ r ∈ (m.accept_room rng c).1.rooms, ∀ r0 ∈ (m.accept_room rng c).1.rooms.head?,
      Relation.ReflTransGen (m.accept_room rng c).1.adjStep r0.center r.center) := by
  obtain ⟨hcx1, hcx2, hcy1, hcy2, hcw, hch⟩ := hcb
  have hcc := center_in_room c hcw hch
  unfold Map.accept_room
  dsimp only
  split
  · -- first accepted room: no corridor
    rename_i heq
    have hnil : m.rooms = [] := List.getLast?_eq_none_iff.mp heq
    refine ⟨hW, hH, ?_, ?_, ?_⟩
    · intro r hr
      rw [carve_room_rooms, hnil, List.nil_append, List.mem_singleton] at hr
      subst hr
      exact ⟨hcx1, hcx2, hcy1, hcy2, hcw, hch⟩
    · intro r hr x y hx1 hx2 hy1 hy2
      rw [carve_room_rooms, hnil, List.nil_append, List.mem_singleton] at hr
      subst hr
      exact carve_room_walkable m r x y hx1 hx2 hy1 hy2
        (show x < m.width by omega) (show y < m.height by omega)
    · intro r hr r0 hr0
      rw [carve_room_rooms, hnil, List.nil_append, List.mem_singleton] at hr
      subst hr
      rw [Option.mem_def] at hr0
      rw [show (m.carve_room r).rooms = ([] : List Room) from hnil] at hr0
      rw [List.nil_append] at hr0
      have : r0 = r := by
        have := hr0
        simp at this
        exact this.symm
      subst this
      exact Relation.ReflTransGen.refl
  · -- corridor to the previous room
    rename_i prev heq
    have hprev_mem : prev ∈ m.rooms := List.mem_of_getLast?_eq_some heq
    obtain ⟨h0, hh0⟩ : ∃ h0, m.rooms.head? = some h0 := by
      cases hm : m.rooms with
      | nil =>
          rw [hm] at heq
          exact absurd heq (by simp)
      | cons a l => exact ⟨a, rfl⟩
    obtain ⟨hpx1, hpx2, hpy1, hpy2, hpw, hph⟩ := hrb prev hprev_mem
    have hpc := center_in_room prev hpw hph
    have hchain := corridor_chain (m.carve_room c) W H hW hH
      prev.center.1 prev.center.2 c.center.1 c.center.2
      (by omega) (by omega) (by omega) (by omega)
    have hwLe1 : walkLe m
        (((m.carve_room c).carve_horizontal_corridor prev.center.1 c.center.1
          prev.center.2).carve_vertical_corridor prev.center.2 c.center.2 c.center.1) :=
      walkLe_trans (carve_room_walkLe m c)
        (walkLe_trans (carve_horizontal_walkLe _ _ _ _) (carve_vertical_walkLe _ _ _ _))
    have hwLe2 : walkLe m
        (((m.carve_room c).carve_vertical_corridor prev.center.2 c.center.2
          prev.center.1).carve_horizontal_corridor prev.center.1 c.center.1 c.center.2) :=
      walkLe_trans (carve_room_walkLe m c)
        (walkLe_trans (carve_vertical_walkLe _ _ _ _) (carve_horizontal_walkLe _ _ _ _))
    have hwLeB1 : walkLe (m.carve_room c)
        (((m.carve_room c).carve_horizontal_corridor prev.center.1 c.center.1
          prev.center.2).carve_vertical_corridor prev.center.2 c.center.2 c.center.1) :=
      walkLe_trans (carve_horizontal_walkLe _ _ _ _) (carve_vertical_walkLe _ _ _ _)
    have hwLeB2 : walkLe (m.carve_room c)
        (((m.carve_room c).carve_vertical_corridor prev.center.2 c.center.2
          prev.center.1).carve_horizontal_corridor prev.center.1 c.center.1 c.center.2) :=
      walkLe_trans (carve_vertical_walkLe _ _ _ _) (carve_horizontal_walkLe _ _ _ _)
    dsimp only
    split
    · -- horizontal then vertical
      refine ⟨hW, hH, ?_, ?_, ?_⟩
      · intro r hr
        rw [carve_vertical_rooms, carve_horizontal_rooms, carve_room_rooms,
          List.mem_append, List.mem_singleton] at hr
        rcases hr with hr | hr
        · exact hrb r hr
        · subst hr
          exact ⟨hcx1, hcx2, hcy1, hcy2, hcw, hch⟩
      · intro r hr x y hx1 hx2 hy1 hy2
        rw [carve_vertical_rooms, carve_horizontal_rooms, carve_room_rooms,
          List.mem_append, List.mem_singleton] at hr
        rcases hr with hr | hr
        · exact hwLe1 x y (hwalk r hr x y hx1 hx2 hy1 hy2)
        · subst hr
          exact hwLeB1 x y (carve_room_walkable m r x y hx1 hx2 hy1 hy2
            (show x < m.width by omega) (show y < m.height by omega))
      · intro r hr r0 hr0
        rw [carve_vertical_rooms, carve_horizontal_rooms, carve_room_rooms,
          List.mem_append, List.mem_singleton] at hr
        rw [Option.mem_def] at hr0
        rw [show ((((m.carve_room c).carve_horizontal_corridor prev.center.1 c.center.1
            prev.center.2).carve_vertical_corridor prev.center.2 c.center.2
            c.center.1).rooms ++ [c]).head? = some h0 from head?_append_left hh0] at hr0
        have hr0' : r0 = h0 := by
          rw [Option.some_inj] at hr0
          exact hr0.symm
        rw [hr0']
        rcases hr with hr | hr
        · exact reachable_mono hwLe1 (hreach r hr h0 (Option.mem_def.mpr hh0))
        · subst hr
          refine Relation.ReflTransGen.trans
            (reachable_mono hwLe1 (hreach prev hprev_mem h0 (Option.mem_def.mpr hh0))) ?_
          exact hchain.1
    · -- vertical then horizontal
      refine ⟨hW, hH, ?_, ?_, ?_⟩
      · intro r hr
        rw [carve_horizontal_rooms, carve_vertical_rooms, carve_room_rooms,
          List.mem_append, List.mem_singleton] at hr
        rcases hr with hr | hr
        · exact hrb r hr
        · subst hr
          exact ⟨hcx1, hcx2, hcy1, hcy2, hcw, hch⟩
      · intro r hr x y hx1 hx2 hy1 hy2
        rw [carve_horizontal_rooms, carve_vertical_rooms, carve_room_rooms,
          List.mem_append, List.mem_singleton] at hr
        rcases hr with hr | hr
        · exact hwLe2 x y (hwalk r hr x y hx1 hx2 hy1 hy2)
        · subst hr
          exact hwLeB2 x y (carve_room_walkable m r x y hx1 hx2 hy1 hy2
            (show x < m.width by omega) (show y < m.height by omega))
      · intro r hr r0 hr0
        rw [carve_horizontal_rooms, carve_vertical_rooms, carve_room_rooms,
          List.mem_append, List.mem_singleton] at hr
        rw [Option.mem_def] at hr0
        rw [show ((((m.carve_room c).carve_vertical_corridor prev.center.2 c.center.2
            prev.center.1).carve_horizontal_corridor prev.center.1 c.center.1
            c.center.2).rooms ++ [c]).head? = some h0 from head?_append_left hh0] at hr0
        have hr0' : r0 = h0 := by
          rw [Option.some_inj] at hr0
          exact hr0.symm
        rw [hr0']
        rcases hr with hr | hr
        · exact reachable_mono hwLe2 (hreach r hr h0 (Option.mem_def.mpr hh0))
        · subst hr
          refine Relation.ReflTransGen.trans
            (reachable_mono hwLe2 (hreach prev hprev_mem h0 (Option.mem_def.mpr hh0))) ?_
          exact hchain.2

/-- Generation loop invariant for claim C3. -/
def gen_inv (W H : Nat) (mr : Map × Rng) : Prop :=
  mr.1.width = W ∧ mr.1.height = H ∧
  (∀ r ∈ mr.1.rooms, room_in_bounds W H r) ∧
  (∀ r ∈ mr.1.rooms, ∀ x y, r.x ≤ x → x < r.x + r.width → r.y ≤ y → y < r.y + r.height →
    mr.1.is_walkable x y = true) ∧
  (∀ r ∈ mr.1.rooms, ∀ r0 ∈ mr.1.rooms.head?,
    Relation.ReflTransGen mr.1.adjStep r0.center r.center)

theorem generate_attempt_gen_inv (mins maxs W H : Nat)
    (h1 : 1 ≤ mins) (h2 : mins ≤ maxs) (hw : maxs + 2 < W) (hh : maxs + 2 < H)
    (mr : Map × Rng) (hinv : gen_inv W H mr) :
    gen_inv W H (Map.generate_attempt mins maxs mr) := by
  obtain ⟨hW, hH, hrb, hwalk, hreach⟩ := hinv
  unfold Map.generate_attempt
  dsimp only
  split
  · exact ⟨hW, hH, hrb, hwalk, hreach⟩
  · have hcb : room_in_bounds W H (gen_candidate mins maxs mr.1 mr.2).1 := by
      have hres := gen_candidate_in_bounds mins maxs mr.1 mr.2 h1 h2 (by omega) (by omega)
      rw [hW, hH] at hres
      exact hres
    exact accept_room_inv W H mr.1 (gen_candidate mins maxs mr.1 mr.2).2
      (gen_candidate mins maxs mr.1 mr.2).1 hW hH hcb hrb hwalk hreach

/-- Claim C3: corridor carving only converts Wall cells and so never
removes walkability (first two conjuncts), and for every grid produced by
`generate` (any stream; sensible size parameters as the program uses)
every cell of every accepted room is reachable from the first accepted
room's center by a path of walkable tiles only. -/
theorem c3_every_room_reachable (w h nr mins maxs : Nat) (rng : Rng)
    (h1 : 1 ≤ mins) (h2 : mins ≤ maxs) (hw : maxs + 2 < w) (hh : maxs + 2 < h) :
    (∀ (m : Map) (x1 x2 y a b : Nat), m.is_walkable a b = true →
      (m.carve_horizontal_corridor x1 x2 y).is_walkable a b = true) ∧
    (∀ (m : Map) (y1 y2 x a b : Nat), m.is_walkable a b = true →
      (m.carve_vertical_corridor y1 y2 x).is_walkable a b = true) ∧
    (∀ r ∈ ((Map.new w h).generate nr mins maxs rng).1.rooms,
      ∀ r0 ∈ ((Map.new w h).generate nr mins maxs rng).1.rooms.head?,
      ∀ x y, r.x ≤ x → x < r.x + r.width → r.y ≤ y → y < r.y + r.height →
        ((Map.new w h).generate nr mins maxs rng).1.reachable r0.center (x, y)) := by
  refine ⟨fun m x1 x2 y a b hw' => carve_horizontal_walkLe m x1 x2 y a b hw',
    fun m y1 y2 x a b hw' => carve_vertical_walkLe m y1 y2 x a b hw', ?_⟩
  have hloop : gen_inv w h (Map.generate_loop nr mins maxs (nr * 10) (Map.new w h, rng)) :=
    generate_loop_inv nr mins maxs (gen_inv w h)
      (generate_attempt_gen_inv mins maxs w h h1 h2 hw hh) (nr * 10) (Map.new w h, rng)
      ⟨rfl, rfl, by simp [Map.new], by simp [Map.new], by simp [Map.new]⟩
  obtain ⟨hWl, hHl, hrbL, hwalkL, hreachL⟩ := hloop
  set L := (Map.generate_loop nr mins maxs (nr * 10) (Map.new w h, rng)).1 with hLdef
  set G := ((Map.new w h).generate nr mins maxs rng).1 with hGdef
  have hGL : G = (L.place_doors.place_potions
      (Map.generate_loop nr mins maxs (nr * 10) (Map.new w h, rng)).2).1 := rfl
  have hrooms : G.rooms = L.rooms := by
    rw [hGL, (place_potions_frame _ _).2.2.1, (place_doors_frame _).2.2.1]
  have hwalkG : walkLe L G := by
    rw [hGL]
    exact walkLe_trans (place_doors_walkLe L) (place_potions_walkLe _ _)
  intro r hr r0 hr0 x y hx1 hx2 hy1 hy2
  rw [hrooms] at hr hr0
  have hr0mem : r0 ∈ L.rooms := by
    rw [Option.mem_def] at hr0
    obtain ⟨ys, hys⟩ := List.head?_eq_some_iff.mp hr0
    rw [hys]
    exact List.mem_cons_self _ _
  obtain ⟨hbx1, hbx2, hby1, hby2, hbw, hbh⟩ := hrbL r hr
  obtain ⟨h0x1, h0x2, h0y1, h0y2, h0w, h0h⟩ := hrbL r0 hr0mem
  have hcc := center_in_room r hbw hbh
  have h0c := center_in_room r0 h0w h0h
  refine ⟨?_, ?_⟩
  · exact hwalkG _ _ (hwalkL r0 hr0mem r0.center.1 r0.center.2 h0c.1 h0c.2.1 h0c.2.2.1 h0c.2.2.2)
  · refine Relation.ReflTransGen.trans (reachable_mono hwalkG (hreachL r hr r0 hr0)) ?_
    refine Relation.ReflTransGen.trans
      (horizontal_path G r.center.2 r.center.1 x ?_) (vertical_path G x r.center.2 y ?_)
    · intro a ha1 ha2
      exact hwalkG _ _ (hwalkL r hr a r.center.2 (by omega) (by omega) hcc.2.2.1 hcc.2.2.2)
    · intro b hb1 hb2
      exact hwalkG _ _ (hwalkL r hr x b hx1 hx2 (by omega) (by omega))

/-- The generated map used by the C3 witness: the program's constants and
the all-zero stream, which accepts exactly the room (1,1,4,4). -/
def c3_demo : Map :=
  ((Map.new MAP_WIDTH MAP_HEIGHT).generate NUM_ROOMS MIN_ROOM_SIZE MAX_ROOM_SIZE
    ⟨fun _ => 0, 0⟩).1

set_option maxRecDepth 100000 in
/-- Witness for C3: in the concrete generated map, the cell (2,3) of the
first accepted room is reachable from that room's center. -/
theorem c3_witness :
    (1 ≤ MIN_ROOM_SIZE ∧ MIN_ROOM_SIZE ≤ MAX_ROOM_SIZE ∧ MAX_ROOM_SIZE + 2 < MAP_WIDTH ∧
      MAX_ROOM_SIZE + 2 < MAP_HEIGHT) ∧
    Room.mk 1 1 4 4 ∈ c3_demo.rooms ∧
    Room.mk 1 1 4 4 ∈ c3_demo.rooms.head? ∧
    c3_demo.reachable (Room.mk 1 1 4 4).center (2, 3) :=
  ⟨⟨by decide, by decide, by decide, by decide⟩, by decide, by decide,
    (c3_every_room_reachable MAP_WIDTH MAP_HEIGHT NUM_ROOMS MIN_ROOM_SIZE MAX_ROOM_SIZE
      ⟨fun _ => 0, 0⟩ (by decide) (by decide) (by decide) (by decide)).2.2
      (Room.mk 1 1 4 4) (by decide) (Room.mk 1 1 4 4) (by decide) 2 3
      (by decide) (by decide) (by decide) (by decide)⟩

/-! ## Claim C8: the player's position is always a walkable in-bounds cell -/

theorem reveal_at_is_walkable (m : Map) (a b x y : Nat) :
    (m.reveal_at a b).is_walkable x y = m.is_walkable x y := by
  unfold Map.reveal_at
  split <;> rfl

theorem reveal_room_is_walkable (m : Map) (i x y : Nat) :
    (m.reveal_room i).is_walkable x y = m.is_walkable x y := by
  unfold Map.reveal_room
  split <;> rfl

theorem reveal_surroundings_is_walkable (m : Map) (a b x y : Nat) :
    (m.reveal_surroundings a b).is_walkable x y = m.is_walkable x y := rfl

theorem pickup_potion_walkLe (m : Map) (a b : Nat) : walkLe m (m.pickup_potion a b) := by
  intro x y hxy
  unfold Map.pickup_potion
  split
  · rw [is_walkable_iff] at hxy
    rw [is_walkable_iff]
    refine ⟨hxy.1, hxy.2.1, ?_⟩
    unfold setCell
    dsimp only
    split
    · simp
    · exact hxy.2.2
  · exact hxy

theorem door_adj_reveal_walkLe (m0 : Map) (nx ny : Nat) (mp : Map) (h : walkLe m0 mp) :
    walkLe m0 (door_adj_reveal nx ny mp) := by
  unfold door_adj_reveal
  refine foldl_preserves (walkLe m0) _ _ _ ?_ h
  intro a d ha
  dsimp only
  split
  · intro x y hxy
    rw [reveal_room_is_walkable]
    exact ha x y hxy
  · exact ha

theorem move_map_vis_walkLe (m : Map) (nx ny : Nat) : walkLe m (move_map_vis m nx ny) := by
  unfold move_map_vis
  dsimp only
  split
  · intro x y hxy
    rw [reveal_surroundings_is_walkable, reveal_at_is_walkable]
    exact hxy
  · intro x y hxy
    rw [reveal_at_is_walkable]
    exact hxy

/-- The move bookkeeping never removes walkability. -/
theorem move_map_update_walkLe (m : Map) (nx ny : Nat) : walkLe m (move_map_update m nx ny) := by
  have h2 : walkLe m (move_map_vis m nx ny) := move_map_vis_walkLe m nx ny
  unfold move_map_update
  dsimp only
  revert h2
  generalize move_map_vis m nx ny = M2
  intro h2
  have h3 : walkLe m (if M2.is_potion nx ny = true then M2.pickup_potion nx ny else M2) := by
    split
    · exact walkLe_trans h2 (pickup_potion_walkLe _ _ _)
    · exact h2
  revert h3
  generalize (if M2.is_potion nx ny = true then M2.pickup_potion nx ny else M2) = M3
  intro h3
  have h4 : walkLe m (if M3.is_door nx ny = true then door_adj_reveal nx ny M3 else M3) := by
    split
    · exact door_adj_reveal_walkLe m nx ny M3 h3
    · exact h3
  revert h4
  generalize (if M3.is_door nx ny = true then door_adj_reveal nx ny M3 else M3) = M4
  intro h4
  split
  · intro x y hxy
    rw [reveal_room_is_walkable]
    exact h4 x y hxy
  · exact h4

/-- A player move keeps the player on a walkable cell. -/
theorem handle_player_move_pos_walkable (v : Int) (g : Game) (dx dy : Int)
    (h : g.map.is_walkable g.player.x g.player.y = true) :
    (g.handle_player_move v dx dy).map.is_walkable
      (g.handle_player_move v dx dy).player.x
      (g.handle_player_move v dx dy).player.y = true := by
  unfold Game.handle_player_move
  dsimp only
  split
  · split
    · exact h
    · exact h
  · split
    · rename_i hwk
      dsimp only
      split
      · exact move_map_update_walkLe g.map _ _ _ _ hwk
      · exact move_map_update_walkLe g.map _ _ _ _ hwk
    · exact h

/-- The enemy phase preserves the player's position, in any order. -/
theorem enemy_turns_order_player_pos (vs : Nat → Int) (ord : List Nat) (g : Game) :
    (g.enemy_turns_order vs ord).player.x = g.player.x ∧
    (g.enemy_turns_order vs ord).player.y = g.player.y := by
  unfold Game.enemy_turns_order
  refine foldl_preserves
    (fun st : Game => st.player.x = g.player.x ∧ st.player.y = g.player.y) _ _ _ ?_ ⟨rfl, rfl⟩
  intro a i ha
  have hp := enemy_turn_step_player_pos vs g.player.x g.player.y a i
  exact ⟨hp.1.trans ha.1, hp.2.trans ha.2⟩

/-- A full turn keeps the player on a walkable cell. -/
theorem turn_pos_walkable (v : Int) (vs : Nat → Int) (g : Game) (dx dy : Int)
    (h : g.map.is_walkable g.player.x g.player.y = true) :
    (g.turn v vs dx dy).map.is_walkable (g.turn v vs dx dy).player.x
      (g.turn v vs dx dy).player.y = true := by
  unfold Game.turn
  dsimp only
  have h1 := handle_player_move_pos_walkable v g dx dy h
  split
  · set g1 := g.handle_player_move v dx dy with hg1
    have hm := enemy_turns_order_map vs (List.range g1.enemies.length) g1
    have hp := enemy_turns_order_player_pos vs (List.range g1.enemies.length) g1
    show (g1.enemy_turns vs).map.is_walkable (g1.enemy_turns vs).player.x
      (g1.enemy_turns vs).player.y = true
    unfold Game.enemy_turns
    rw [hm, hp.1, hp.2]
    exact h1
  · exact h1

/-- Rooms of the generated map stay in bounds and their interiors stay
walkable. -/
theorem generate_room_walkable (w h nr mins maxs : Nat) (rng : Rng)
    (h1 : 1 ≤ mins) (h2 : mins ≤ maxs) (hw : maxs + 2 < w) (hh : maxs + 2 < h) :
    ∀ r ∈ ((Map.new w h).generate nr mins maxs rng).1.rooms,
      room_in_bounds w h r ∧
      ∀ x y, r.x ≤ x → x < r.x + r.width → r.y ≤ y → y < r.y + r.height →
        ((Map.new w h).generate nr mins maxs rng).1.is_walkable x y = true := by
  have hloop : gen_inv w h (Map.generate_loop nr mins maxs (nr * 10) (Map.new w h, rng)) :=
    generate_loop_inv nr mins maxs (gen_inv w h)
      (generate_attempt_gen_inv mins maxs w h h1 h2 hw hh) (nr * 10) (Map.new w h, rng)
      ⟨rfl, rfl, by simp [Map.new], by simp [Map.new], by simp [Map.new]⟩
  obtain ⟨-, -, hrbL, hwalkL, -⟩ := hloop
  set L := (Map.generate_loop nr mins maxs (nr * 10) (Map.new w h, rng)).1 with hLdef
  set G := ((Map.new w h).generate nr mins maxs rng).1 with hGdef
  have hGL : G = (L.place_doors.place_potions
      (Map.generate_loop nr mins maxs (nr * 10) (Map.new w h, rng)).2).1 := rfl
  have hrooms : G.rooms = L.rooms := by
    rw [hGL, (place_potions_frame _ _).2.2.1, (place_doors_frame _).2.2.1]
  have hwalkG : walkLe L G := by
    rw [hGL]
    exact walkLe_trans (place_doors_walkLe L) (place_potions_walkLe _ _)
  intro r hr
  rw [hrooms] at hr
  exact ⟨hrbL r hr, fun x y ha hb hc hd => hwalkG _ _ (hwalkL r hr x y ha hb hc hd)⟩

/-- With at least one requested room, the generated map's room list has a
first element. -/
theorem generate_head_exists (w h nr mins maxs : Nat) (rng : Rng) (hnr : 1 ≤ nr) :
    ∃ r0 : Room, ((Map.new w h).generate nr mins maxs rng).1.rooms.head? = some r0 := by
  obtain ⟨k, hk⟩ : ∃ k, nr * 10 = k + 1 := ⟨nr * 10 - 1, by omega⟩
  have hhead : ∃ r0 : Room,
      (Map.generate_loop nr mins maxs (nr * 10) (Map.new w h, rng)).1.rooms.head? = some r0 := by
    rw [hk]
    show ∃ r0 : Room, (Map.generate_loop nr mins maxs (k + 1) (Map.new w h, rng)).1.rooms.head? =
      some r0
    unfold Map.generate_loop
    rw [if_neg (by simp [Map.new]; omega)]
    set c := gen_candidate mins maxs (Map.new w h) rng with hc
    have hstep : (Map.generate_attempt mins maxs (Map.new w h, rng)).1.rooms.head? =
        some c.1 := by
      unfold Map.generate_attempt
      rw [if_neg (by simp [Map.new])]
      rw [accept_room_rooms]
      rfl
    exact ⟨c.1, generate_loop_inv nr mins maxs (fun mr => mr.1.rooms.head? = some c.1)
      (fun mr hmr => generate_attempt_head mins maxs mr c.1 hmr) k _ hstep⟩
  obtain ⟨r0, hr0⟩ := hhead
  refine ⟨r0, ?_⟩
  unfold Map.generate
  rw [(place_potions_frame _ _).2.2.1, (place_doors_frame _).2.2.1]
  exact hr0

/-- The initial game places the player on a walkable cell. -/
theorem init_pos_walkable (w h nr mins maxs : Nat) (rng : Rng)
    (h1 : 1 ≤ mins) (h2 : mins ≤ maxs) (hw : maxs + 2 < w) (hh : maxs + 2 < h) (hnr : 1 ≤ nr) :
    (Game.init w h nr mins maxs rng).map.is_walkable
      (Game.init w h nr mins maxs rng).player.x
      (Game.init w h nr mins maxs rng).player.y = true := by
  obtain ⟨r0, hr0⟩ := generate_head_exists w h nr mins maxs rng hnr
  have hr0mem : r0 ∈ ((Map.new w h).generate nr mins maxs rng).1.rooms := by
    obtain ⟨ys, hys⟩ := List.head?_eq_some_iff.mp hr0
    rw [hys]
    exact List.mem_cons_self _ _
  obtain ⟨hb, hwalkr⟩ := generate_room_walkable w h nr mins maxs rng h1 h2 hw hh r0 hr0mem
  have hc := center_in_room r0 hb.2.2.2.2.1 hb.2.2.2.2.2
  have hspawn : ((Map.new w h).generate nr mins maxs rng).1.player_spawn = r0.center := by
    unfold Map.player_spawn
    rw [hr0]
  unfold Game.init
  dsimp only
  rw [reveal_room_is_walkable, hspawn]
  exact hwalkr r0.center.1 r0.center.2 hc.1 hc.2.1 hc.2.2.1 hc.2.2.2

/-- Repeated game turns, each a `Move(dx, dy)` intent with its random
rolls (the loop body of `Game::run` for `Action::Move`). -/
def run_turns (g : Game) (steps : List (Int × (Nat → Int) × Int × Int)) : Game :=
  steps.foldl (fun st s => st.turn s.1 s.2.1 s.2.2.1 s.2.2.2) g

/-- Claim C8: in every reachable game state the live player stands on a
walkable, in-bounds cell — the initial spawn is walkable and every turn
preserves walkability of the player's cell — and a step whose destination
is not walkable (including out of bounds by coordinate underflow) never
changes the player's position. -/
theorem c8_player_position_walkable (w h nr mins maxs : Nat) (rng : Rng)
    (h1 : 1 ≤ mins) (h2 : mins ≤ maxs) (hw : maxs + 2 < w) (hh : maxs + 2 < h) (hnr : 1 ≤ nr)
    (steps : List (Int × (Nat → Int) × Int × Int)) :
    (run_turns (Game.init w h nr mins maxs rng) steps).map.is_walkable
      (run_turns (Game.init w h nr mins maxs rng) steps).player.x
      (run_turns (Game.init w h nr mins maxs rng) steps).player.y = true ∧
    (∀ (g : Game) (v dx dy : Int),
      g.map.is_walkable (usize_cast ((g.player.x : Int) + dx))
        (usize_cast ((g.player.y : Int) + dy)) = false →
      (g.handle_player_move v dx dy).player.x = g.player.x ∧
      (g.handle_player_move v dx dy).player.y = g.player.y) := by
  constructor
  · unfold run_turns
    refine foldl_preserves
      (fun st : Game => st.map.is_walkable st.player.x st.player.y = true) _ _ _ ?_
      (init_pos_walkable w h nr mins maxs rng h1 h2 hw hh hnr)
    intro a s ha
    exact turn_pos_walkable s.1 s.2.1 a s.2.2.1 s.2.2.2 ha
  · intro g v dx dy hnw
    unfold Game.handle_player_move
    dsimp only
    split
    · split
      · exact ⟨rfl, rfl⟩
      · exact ⟨rfl, rfl⟩
    · split
      · rename_i hwk
        rw [hnw] at hwk
        exact absurd hwk (by simp)
      · exact ⟨rfl, rfl⟩

/-- Witness for C8 at the program's constants, the all-zero stream, and
one step to the right. -/
theorem c8_witness :
    (1 ≤ MIN_ROOM_SIZE ∧ MIN_ROOM_SIZE ≤ MAX_ROOM_SIZE ∧ MAX_ROOM_SIZE + 2 < MAP_WIDTH ∧
      MAX_ROOM_SIZE + 2 < MAP_HEIGHT ∧ 1 ≤ NUM_ROOMS) ∧
    (run_turns (Game.init MAP_WIDTH MAP_HEIGHT NUM_ROOMS MIN_ROOM_SIZE MAX_ROOM_SIZE
        ⟨fun _ => 0, 0⟩) [(0, fun _ => 0, 1, 0)]).map.is_walkable
      (run_turns (Game.init MAP_WIDTH MAP_HEIGHT NUM_ROOMS MIN_ROOM_SIZE MAX_ROOM_SIZE
        ⟨fun _ => 0, 0⟩) [(0, fun _ => 0, 1, 0)]).player.x
      (run_turns (Game.init MAP_WIDTH MAP_HEIGHT NUM_ROOMS MIN_ROOM_SIZE MAX_ROOM_SIZE
        ⟨fun _ => 0, 0⟩) [(0, fun _ => 0, 1, 0)]).player.y = true :=
  ⟨⟨by decide, by decide, by decide, by decide, by decide⟩,
    (c8_player_position_walkable MAP_WIDTH MAP_HEIGHT NUM_ROOMS MIN_ROOM_SIZE MAX_ROOM_SIZE
      ⟨fun _ => 0, 0⟩ (by decide) (by decide) (by decide) (by decide) (by decide)
      [(0, fun _ => 0, 1, 0)]).1⟩

/-! ## Claim C7: door placement characterization -/

/-- Pre-pass door condition at cell `(x, y)` for `room`: the cell sits
immediately outside one of the room's four edges (within the edge's
span), currently holds a Corridor, and both cells perpendicular to the
edge direction are Wall, with out-of-bounds counting as Wall. -/
def doorCondAt (m : Map) (room : Room) (x y : Nat) : Prop :=
  m.tiles y x = Tile.Corridor ∧
  ((room.y > 0 ∧ y = room.y - 1 ∧ room.x ≤ x ∧ x < room.x + room.width ∧
     (x = 0 ∨ m.tiles y (x - 1) = Tile.Wall) ∧
     (x + 1 ≥ m.width ∨ m.tiles y (x + 1) = Tile.Wall)) ∨
   (room.y + room.height < m.height ∧ y = room.y + room.height ∧
     room.x ≤ x ∧ x < room.x + room.width ∧
     (x = 0 ∨ m.tiles y (x - 1) = Tile.Wall) ∧
     (x + 1 ≥ m.width ∨ m.tiles y (x + 1) = Tile.Wall)) ∨
   (room.x > 0 ∧ x = room.x - 1 ∧ room.y ≤ y ∧ y < room.y + room.height ∧
     (y = 0 ∨ m.tiles (y - 1) x = Tile.Wall) ∧
     (y + 1 ≥ m.height ∨ m.tiles (y + 1) x = Tile.Wall)) ∨
   (room.x + room.width < m.width ∧ x = room.x + room.width ∧
     room.y ≤ y ∧ y < room.y + room.height ∧
     (y = 0 ∨ m.tiles (y - 1) x = Tile.Wall) ∧
     (y + 1 ≥ m.height ∨ m.tiles (y + 1) x = Tile.Wall)))

/-- Relation between the pre-pass map and any intermediate state of the
door pass: dimensions unchanged, and every changed cell was a Corridor
that became a justified Door. -/
def doorR (m0 m' : Map) : Prop :=
  m'.width = m0.width ∧ m'.height = m0.height ∧
  ∀ a b : Nat, m'.tiles b a = m0.tiles b a ∨
    (m0.tiles b a = Tile.Corridor ∧ m'.tiles b a = Tile.Door ∧
      ∃ room ∈ m0.rooms, doorCondAt m0 room a b)

theorem doorR_rfl (m0 : Map) : doorR m0 m0 :=
  ⟨rfl, rfl, fun _ _ => Or.inl rfl⟩

/-- A justified door step preserves `doorR`. -/
theorem doorStep_doorR (m0 : Map) (cx cy : Nat) (ps : List (Nat × Nat)) (m : Map)
    (hR : doorR m0 m)
    (hjust : m0.tiles cy cx = Tile.Corridor → (∀ p ∈ ps, m0.tiles p.2 p.1 = Tile.Wall) →
      ∃ room ∈ m0.rooms, doorCondAt m0 room cx cy) :
    doorR m0 (doorStep cx cy ps m) := by
  obtain ⟨hWm, hHm, hT⟩ := hR
  unfold doorStep
  split
  · rename_i hc
    obtain ⟨hcor, hperp⟩ := hc
    have hcor0 : m0.tiles cy cx = Tile.Corridor := by
      rcases hT cx cy with he | ⟨-, hd, -⟩
      · rw [← he]
        exact hcor
      · rw [hd] at hcor
        exact absurd hcor (by simp)
    have hperp0 : ∀ p ∈ ps, m0.tiles p.2 p.1 = Tile.Wall := by
      intro p hp
      have hw := hperp p hp
      rcases hT p.1 p.2 with he | ⟨-, hd, -⟩
      · rw [← he]
        exact hw
      · rw [hd] at hw
        exact absurd hw (by simp)
    have hex := hjust hcor0 hperp0
    refine ⟨hWm, hHm, ?_⟩
    intro a b
    show (setCell m.tiles cy cx Tile.Door b a = m0.tiles b a) ∨ _
    unfold setCell
    dsimp only
    split
    · rename_i hab
      right
      rw [hab.1, hab.2]
      exact ⟨hcor0, rfl, hex⟩
    · exact hT a b
  · exact ⟨hWm, hHm, hT⟩

/-- Once a cell is a Door, the door pass keeps it a Door. -/
theorem doorStep_door_stable (cx cy : Nat) (ps : List (Nat × Nat)) (m : Map) (a b : Nat)
    (h : m.tiles b a = Tile.Door) : (doorStep cx cy ps m).tiles b a = Tile.Door := by
  unfold doorStep
  split
  · show setCell m.tiles cy cx Tile.Door b a = Tile.Door
    unfold setCell
    split
    · rfl
    · exact h
  · exact h

theorem edgeFold_door_stable (guard : Prop) [Decidable guard] (cell : Nat → Nat × Nat)
    (perps : Nat → List (Nat × Nat)) (idxs : List Nat) (m : Map) (a b : Nat)
    (h : m.tiles b a = Tile.Door) :
    (edgeFold guard cell perps idxs m).tiles b a = Tile.Door := by
  unfold edgeFold
  refine foldl_preserves (fun x : Map => x.tiles b a = Tile.Door) _ _ _ ?_ h
  intro acc i hacc
  split
  · exact doorStep_door_stable _ _ _ acc a b hacc
  · exact hacc

/-- A whole justified edge fold preserves `doorR`. -/
theorem edgeFold_doorR (guard : Prop) [Decidable guard] (cell : Nat → Nat × Nat)
    (perps : Nat → List (Nat × Nat)) (m0 : Map) :
    ∀ idxs : List Nat,
      (∀ i ∈ idxs, guard → m0.tiles (cell i).2 (cell i).1 = Tile.Corridor →
        (∀ p ∈ perps i, m0.tiles p.2 p.1 = Tile.Wall) →
        ∃ room ∈ m0.rooms, doorCondAt m0 room (cell i).1 (cell i).2) →
      ∀ m : Map, doorR m0 m → doorR m0 (edgeFold guard cell perps idxs m) := by
  intro idxs
  induction idxs with
  | nil => exact fun _ m h => h
  | cons j t ih =>
      intro hjust m hR
      rw [show edgeFold guard cell perps (j :: t) m =
        edgeFold guard cell perps t
          (if guard then doorStep (cell j).1 (cell j).2 (perps j) m else m) from rfl]
      refine ih (fun i hi => hjust i (List.mem_cons_of_mem j hi)) _ ?_
      split
      · rename_i hg
        exact doorStep_doorR m0 _ _ _ m hR (hjust j (List.mem_cons_self j t) hg)
      · exact hR

/-- If the pre-pass door condition selects index `i` of an edge, the edge
fold leaves a Door at its cell. -/
theorem edgeFold_sets_door (guard : Prop) [Decidable guard] (cell : Nat → Nat × Nat)
    (perps : Nat → List (Nat × Nat)) (m0 : Map) (i : Nat) (hg : guard)
    (hcor : m0.tiles (cell i).2 (cell i).1 = Tile.Corridor)
    (hperp : ∀ p ∈ perps i, m0.tiles p.2 p.1 = Tile.Wall) :
    ∀ idxs : List Nat,
      (∀ j ∈ idxs, guard → m0.tiles (cell j).2 (cell j).1 = Tile.Corridor →
        (∀ p ∈ perps j, m0.tiles p.2 p.1 = Tile.Wall) →
        ∃ room ∈ m0.rooms, doorCondAt m0 room (cell j).1 (cell j).2) →
      i ∈ idxs →
      ∀ m : Map, doorR m0 m →
        (edgeFold guard cell perps idxs m).tiles (cell i).2 (cell i).1 = Tile.Door := by
  intro idxs
  induction idxs with
  | nil =>
      intro _ hi
      cases hi
  | cons j t ih =>
      intro hjust hi m hR
      rw [show edgeFold guard cell perps (j :: t) m =
        edgeFold guard cell perps t
          (if guard then doorStep (cell j).1 (cell j).2 (perps j) m else m) from rfl]
      rcases List.mem_cons.mp hi with hj | hit
      · subst hj
        have hafter : (if guard then doorStep (cell i).1 (cell i).2 (perps i) m else m).tiles
            (cell i).2 (cell i).1 = Tile.Door := by
          rw [if_pos hg]
          unfold doorStep
          split
          · show setCell m.tiles (cell i).2 (cell i).1 Tile.Door (cell i).2 (cell i).1 =
              Tile.Door
            unfold setCell
            rw [if_pos ⟨rfl, rfl⟩]
          · rename_i hnc
            rcases hR.2.2 (cell i).1 (cell i).2 with he | ⟨-, hd, -⟩
            · exfalso
              refine hnc ⟨by rw [he]; exact hcor, ?_⟩
              intro p hp
              rcases hR.2.2 p.1 p.2 with he' | ⟨hc0, -, -⟩
              · rw [he']
                exact hperp p hp
              · exact absurd hc0 (by rw [hperp p hp]; simp)
            · exact hd
        exact edgeFold_door_stable guard cell perps t _ _ _ hafter
      · by_cases hgj : guard
        · rw [if_pos hgj]
          exact ih (fun k hk => hjust k (List.mem_cons_of_mem j hk)) hit
            (doorStep (cell j).1 (cell j).2 (perps j) m)
            (doorStep_doorR m0 _ _ _ m hR (hjust j (List.mem_cons_self j t) hgj))
        · rw [if_neg hgj]
          exact ih (fun k hk => hjust k (List.mem_cons_of_mem j hk)) hit m hR

theorem mem_range'_iff (s n m : Nat) : m ∈ List.range' s n ↔ s ≤ m ∧ m < s + n := by
  rw [List.mem_range']
  constructor
  · rintro ⟨i, hi, rfl⟩
    omega
  · rintro ⟨h1, h2⟩
    exact ⟨m - s, by omega, by omega⟩

/-- A justified top-edge trigger satisfies the pre-pass door condition. -/
theorem doors_top_just (m0 : Map) (room : Room) (hmem : room ∈ m0.rooms)
    (i : Nat) (hi : i ∈ List.range' room.x room.width) (hg : room.y > 0)
    (hcor : m0.tiles (room.y - 1) i = Tile.Corridor)
    (hperp : ∀ p ∈ (if i = 0 then ([] : List (Nat × Nat)) else [(i - 1, room.y - 1)]) ++
      (if i + 1 ≥ m0.width then ([] : List (Nat × Nat)) else [(i + 1, room.y - 1)]),
      m0.tiles p.2 p.1 = Tile.Wall) :
    ∃ r ∈ m0.rooms, doorCondAt m0 r i (room.y - 1) := by
  rw [mem_range'_iff] at hi
  refine ⟨room, hmem, hcor, Or.inl ⟨hg, rfl, hi.1, hi.2, ?_, ?_⟩⟩
  · by_cases h0 : i = 0
    · exact Or.inl h0
    · refine Or.inr (hperp (i - 1, room.y - 1) ?_)
      rw [List.mem_append]
      exact Or.inl (by rw [if_neg h0]; exact List.mem_singleton_self _)
  · by_cases hW : i + 1 ≥ m0.width
    · exact Or.inl hW
    · refine Or.inr (hperp (i + 1, room.y - 1) ?_)
      rw [List.mem_append]
      exact Or.inr (by rw [if_neg hW]; exact List.mem_singleton_self _)

/-- A justified bottom-edge trigger satisfies the pre-pass door condition. -/
theorem doors_bottom_just (m0 : Map) (room : Room) (hmem : room ∈ m0.rooms)
    (i : Nat) (hi : i ∈ List.range' room.x room.width)
    (hg : room.y + room.height < m0.height)
    (hcor : m0.tiles (room.y + room.height) i = Tile.Corridor)
    (hperp : ∀ p ∈
      (if i = 0 then ([] : List (Nat × Nat)) else [(i - 1, room.y + room.height)]) ++
      (if i + 1 ≥ m0.width then ([] : List (Nat × Nat)) else [(i + 1, room.y + room.height)]),
      m0.tiles p.2 p.1 = Tile.Wall) :
    ∃ r ∈ m0.rooms, doorCondAt m0 r i (room.y + room.height) := by
  rw [mem_range'_iff] at hi
  refine ⟨room, hmem, hcor, Or.inr (Or.inl ⟨hg, rfl, hi.1, hi.2, ?_, ?_⟩)⟩
  · by_cases h0 : i = 0
    · exact Or.inl h0
    · refine Or.inr (hperp (i - 1, room.y + room.height) ?_)
      rw [List.mem_append]
      exact Or.inl (by rw [if_neg h0]; exact List.mem_singleton_self _)
  · by_cases hW : i + 1 ≥ m0.width
    · exact Or.inl hW
    · refine Or.inr (hperp (i + 1, room.y + room.height) ?_)
      rw [List.mem_append]
      exact Or.inr (by rw [if_neg hW]; exact List.mem_singleton_self _)

/-- A justified left-edge trigger satisfies the pre-pass door condition. -/
theorem doors_left_just (m0 : Map) (room : Room) (hmem : room ∈ m0.rooms)
    (j : Nat) (hj : j ∈ List.range' room.y room.height) (hg : room.x > 0)
    (hcor : m0.tiles j (room.x - 1) = Tile.Corridor)
    (hperp : ∀ p ∈ (if j = 0 then ([] : List (Nat × Nat)) else [(room.x - 1, j - 1)]) ++
      (if j + 1 ≥ m0.height then ([] : List (Nat × Nat)) else [(room.x - 1, j + 1)]),
      m0.tiles p.2 p.1 = Tile.Wall) :
    ∃ r ∈ m0.rooms, doorCondAt m0 r (room.x - 1) j := by
  rw [mem_range'_iff] at hj
  refine ⟨room, hmem, hcor, Or.inr (Or.inr (Or.inl ⟨hg, rfl, hj.1, hj.2, ?_, ?_⟩))⟩
  · by_cases h0 : j = 0
    · exact Or.inl h0
    · refine Or.inr (hperp (room.x - 1, j - 1) ?_)
      rw [List.mem_append]
      exact Or.inl (by rw [if_neg h0]; exact List.mem_singleton_self _)
  · by_cases hH : j + 1 ≥ m0.height
    · exact Or.inl hH
    · refine Or.inr (hperp (room.x - 1, j + 1) ?_)
      rw [List.mem_append]
      exact Or.inr (by rw [if_neg hH]; exact List.mem_singleton_self _)

/-- A justified right-edge trigger satisfies the pre-pass door condition. -/
theorem doors_right_just (m0 : Map) (room : Room) (hmem : room ∈ m0.rooms)
    (j : Nat) (hj : j ∈ List.range' room.y room.height)
    (hg : room.x + room.width < m0.width)
    (hcor : m0.tiles j (room.x + room.width) = Tile.Corridor)
    (hperp : ∀ p ∈
      (if j = 0 then ([] : List (Nat × Nat)) else [(room.x + room.width, j - 1)]) ++
      (if j + 1 ≥ m0.height then ([] : List (Nat × Nat)) else [(room.x + room.width, j + 1)]),
      m0.tiles p.2 p.1 = Tile.Wall) :
    ∃ r ∈ m0.rooms, doorCondAt m0 r (room.x + room.width) j := by
  rw [mem_range'_iff] at hj
  refine ⟨room, hmem, hcor, Or.inr (Or.inr (Or.inr ⟨hg, rfl, hj.1, hj.2, ?_, ?_⟩))⟩
  · by_cases h0 : j = 0
    · exact Or.inl h0
    · refine Or.inr (hperp (room.x + room.width, j - 1) ?_)
      rw [List.mem_append]
      exact Or.inl (by rw [if_neg h0]; exact List.mem_singleton_self _)
  · by_cases hH : j + 1 ≥ m0.height
    · exact Or.inl hH
    · refine Or.inr (hperp (room.x + room.width, j + 1) ?_)
      rw [List.mem_append]
      exact Or.inr (by rw [if_neg hH]; exact List.mem_singleton_self _)

theorem doors_top_stable (m : Map) (room : Room) (a b : Nat)
    (h : m.tiles b a = Tile.Door) : (m.doors_top room).tiles b a = Tile.Door := by
  unfold Map.doors_top
  exact edgeFold_door_stable _ _ _ _ _ _ _ h

theorem doors_bottom_stable (m : Map) (room : Room) (a b : Nat)
    (h : m.tiles b a = Tile.Door) : (m.doors_bottom room).tiles b a = Tile.Door := by
  unfold Map.doors_bottom
  exact edgeFold_door_stable _ _ _ _ _ _ _ h

theorem doors_left_stable (m : Map) (room : Room) (a b : Nat)
    (h : m.tiles b a = Tile.Door) : (m.doors_left room).tiles b a = Tile.Door := by
  unfold Map.doors_left
  exact edgeFold_door_stable _ _ _ _ _ _ _ h

theorem doors_right_stable (m : Map) (room : Room) (a b : Nat)
    (h : m.tiles b a = Tile.Door) : (m.doors_right room).tiles b a = Tile.Door := by
  unfold Map.doors_right
  exact edgeFold_door_stable _ _ _ _ _ _ _ h

theorem doors_top_doorR (m0 : Map) (room : Room) (hmem : room ∈ m0.rooms)
    (m : Map) (hR : doorR m0 m) : doorR m0 (m.doors_top room) := by
  unfold Map.doors_top
  simp only [hR.1]
  exact edgeFold_doorR _ _ _ m0 _
    (fun i hi hg hcor hperp => doors_top_just m0 room hmem i hi hg hcor hperp) m hR

theorem doors_bottom_doorR (m0 : Map) (room : Room) (hmem : room ∈ m0.rooms)
    (m : Map) (hR : doorR m0 m) : doorR m0 (m.doors_bottom room) := by
  unfold Map.doors_bottom
  simp only [hR.1, hR.2.1]
  exact edgeFold_doorR _ _ _ m0 _
    (fun i hi hg hcor hperp => doors_bottom_just m0 room hmem i hi hg hcor hperp) m hR

theorem doors_left_doorR (m0 : Map) (room : Room) (hmem : room ∈ m0.rooms)
    (m : Map) (hR : doorR m0 m) : doorR m0 (m.doors_left room) := by
  unfold Map.doors_left
  simp only [hR.2.1]
  exact edgeFold_doorR _ _ _ m0 _
    (fun j hj hg hcor hperp => doors_left_just m0 room hmem j hj hg hcor hperp) m hR

theorem doors_right_doorR (m0 : Map) (room : Room) (hmem : room ∈ m0.rooms)
    (m : Map) (hR : doorR m0 m) : doorR m0 (m.doors_right room) := by
  unfold Map.doors_right
  simp only [hR.1, hR.2.1]
  exact edgeFold_doorR _ _ _ m0 _
    (fun j hj hg hcor hperp => doors_right_just m0 room hmem j hj hg hcor hperp) m hR

theorem doors_top_sets (m0 : Map) (room : Room) (hmem : room ∈ m0.rooms)
    (x : Nat) (hg : room.y > 0) (hx1 : room.x ≤ x) (hx2 : x < room.x + room.width)
    (hcor : m0.tiles (room.y - 1) x = Tile.Corridor)
    (hp1 : x = 0 ∨ m0.tiles (room.y - 1) (x - 1) = Tile.Wall)
    (hp2 : x + 1 ≥ m0.width ∨ m0.tiles (room.y - 1) (x + 1) = Tile.Wall)
    (m : Map) (hR : doorR m0 m) :
    (m.doors_top room).tiles (room.y - 1) x = Tile.Door := by
  have hperp : ∀ p ∈ (if x = 0 then ([] : List (Nat × Nat)) else [(x - 1, room.y - 1)]) ++
      (if x + 1 ≥ m0.width then ([] : List (Nat × Nat)) else [(x + 1, room.y - 1)]),
      m0.tiles p.2 p.1 = Tile.Wall := by
    intro p hp
    rw [List.mem_append] at hp
    rcases hp with hp | hp
    · by_cases h0 : x = 0
      · rw [if_pos h0] at hp
        cases hp
      · rw [if_neg h0, List.mem_singleton] at hp
        subst hp
        rcases hp1 with hc0 | hw
        · exact absurd hc0 h0
        · exact hw
    · by_cases hW : x + 1 ≥ m0.width
      · rw [if_pos hW] at hp
        cases hp
      · rw [if_neg hW, List.mem_singleton] at hp
        subst hp
        rcases hp2 with hc0 | hw
        · exact absurd hc0 hW
        · exact hw
  unfold Map.doors_top
  simp only [hR.1]
  exact edgeFold_sets_door (room.y > 0) (fun i => (i, room.y - 1))
    (fun i => (if i = 0 then ([] : List (Nat × Nat)) else [(i - 1, room.y - 1)]) ++
      (if i + 1 ≥ m0.width then ([] : List (Nat × Nat)) else [(i + 1, room.y - 1)]))
    m0 x hg hcor hperp (List.range' room.x room.width)
    (fun j hj hgj hcj hpj => doors_top_just m0 room hmem j hj hgj hcj hpj)
    ((mem_range'_iff _ _ _).mpr ⟨hx1, hx2⟩) m hR

theorem doors_bottom_sets (m0 : Map) (room : Room) (hmem : room ∈ m0.rooms)
    (x : Nat) (hg : room.y + room.height < m0.height)
    (hx1 : room.x ≤ x) (hx2 : x < room.x + room.width)
    (hcor : m0.tiles (room.y + room.height) x = Tile.Corridor)
    (hp1 : x = 0 ∨ m0.tiles (room.y + room.height) (x - 1) = Tile.Wall)
    (hp2 : x + 1 ≥ m0.width ∨ m0.tiles (room.y + room.height) (x + 1) = Tile.Wall)
    (m : Map) (hR : doorR m0 m) :
    (m.doors_bottom room).tiles (room.y + room.height) x = Tile.Door := by
  have hperp : ∀ p ∈
      (if x = 0 then ([] : List (Nat × Nat)) else [(x - 1, room.y + room.height)]) ++
      (if x + 1 ≥ m0.width then ([] : List (Nat × Nat)) else [(x + 1, room.y + room.height)]),
      m0.tiles p.2 p.1 = Tile.Wall := by
    intro p hp
    rw [List.mem_append] at hp
    rcases hp with hp | hp
    · by_cases h0 : x = 0
      · rw [if_pos h0] at hp
        cases hp
      · rw [if_neg h0, List.mem_singleton] at hp
        subst hp
        rcases hp1 with hc0 | hw
        · exact absurd hc0 h0
        · exact hw
    · by_cases hW : x + 1 ≥ m0.width
      · rw [if_pos hW] at hp
        cases hp
      · rw [if_neg hW, List.mem_singleton] at hp
        subst hp
        rcases hp2 with hc0 | hw
        · exact absurd hc0 hW
        · exact hw
  unfold Map.doors_bottom
  simp only [hR.1, hR.2.1]
  exact edgeFold_sets_door (room.y + room.height < m0.height)
    (fun i => (i, room.y + room.height))
    (fun i => (if i = 0 then ([] : List (Nat × Nat)) else [(i - 1, room.y + room.height)]) ++
      (if i + 1 ≥ m0.width then ([] : List (Nat × Nat)) else [(i + 1, room.y + room.height)]))
    m0 x hg hcor hperp (List.range' room.x room.width)
    (fun j hj hgj hcj hpj => doors_bottom_just m0 room hmem j hj hgj hcj hpj)
    ((mem_range'_iff _ _ _).mpr ⟨hx1, hx2⟩) m hR

theorem doors_left_sets (m0 : Map) (room : Room) (hmem : room ∈ m0.rooms)
    (y : Nat) (hg : room.x > 0) (hy1 : room.y ≤ y) (hy2 : y < room.y + room.height)
    (hcor : m0.tiles y (room.x - 1) = Tile.Corridor)
    (hp1 : y = 0 ∨ m0.tiles (y - 1) (room.x - 1) = Tile.Wall)
    (hp2 : y + 1 ≥ m0.height ∨ m0.tiles (y + 1) (room.x - 1) = Tile.Wall)
    (m : Map) (hR : doorR m0 m) :
    (m.doors_left room).tiles y (room.x - 1) = Tile.Door := by
  have hperp : ∀ p ∈ (if y = 0 then ([] : List (Nat × Nat)) else [(room.x - 1, y - 1)]) ++
      (if y + 1 ≥ m0.height then ([] : List (Nat × Nat)) else [(room.x - 1, y + 1)]),
      m0.tiles p.2 p.1 = Tile.Wall := by
    intro p hp
    rw [List.mem_append] at hp
    rcases hp with hp | hp
    · by_cases h0 : y = 0
      · rw [if_pos h0] at hp
        cases hp
      · rw [if_neg h0, List.mem_singleton] at hp
        subst hp
        rcases hp1 with hc0 | hw
        · exact absurd hc0 h0
        · exact hw
    · by_cases hH : y + 1 ≥ m0.height
      · rw [if_pos hH] at hp
        cases hp
      · rw [if_neg hH, List.mem_singleton] at hp
        subst hp
        rcases hp2 with hc0 | hw
        · exact absurd hc0 hH
        · exact hw
  unfold Map.doors_left
  simp only [hR.2.1]
  exact edgeFold_sets_door (room.x > 0) (fun j => (room.x - 1, j))
    (fun j => (if j = 0 then ([] : List (Nat × Nat)) else [(room.x - 1, j - 1)]) ++
      (if j + 1 ≥ m0.height then ([] : List (Nat × Nat)) else [(room.x - 1, j + 1)]))
    m0 y hg hcor hperp (List.range' room.y room.height)
    (fun j hj hgj hcj hpj => doors_left_just m0 room hmem j hj hgj hcj hpj)
    ((mem_range'_iff _ _ _).mpr ⟨hy1, hy2⟩) m hR

theorem doors_right_sets (m0 : Map) (room : Room) (hmem : room ∈ m0.rooms)
    (y : Nat) (hg : room.x + room.width < m0.width)
    (hy1 : room.y ≤ y) (hy2 : y < room.y + room.height)
    (hcor : m0.tiles y (room.x + room.width) = Tile.Corridor)
    (hp1 : y = 0 ∨ m0.tiles (y - 1) (room.x + room.width) = Tile.Wall)
    (hp2 : y + 1 ≥ m0.height ∨ m0.tiles (y + 1) (room.x + room.width) = Tile.Wall)
    (m : Map) (hR : doorR m0 m) :
    (m.doors_right room).tiles y (room.x + room.width) = Tile.Door := by
  have hperp : ∀ p ∈
      (if y = 0 then ([] : List (Nat × Nat)) else [(room.x + room.width, y - 1)]) ++
      (if y + 1 ≥ m0.height then ([] : List (Nat × Nat)) else [(room.x + room.width, y + 1)]),
      m0.tiles p.2 p.1 = Tile.Wall := by
    intro p hp
    rw [List.mem_append] at hp
    rcases hp with hp | hp
    · by_cases h0 : y = 0
      · rw [if_pos h0] at hp
        cases hp
      · rw [if_neg h0, List.mem_singleton] at hp
        subst hp
        rcases hp1 with hc0 | hw
        · exact absurd hc0 h0
        · exact hw
    · by_cases hH : y + 1 ≥ m0.height
      · rw [if_pos hH] at hp
        cases hp
      · rw [if_neg hH, List.mem_singleton] at hp
        subst hp
        rcases hp2 with hc0 | hw
        · exact absurd hc0 hH
        · exact hw
  unfold Map.doors_right
  simp only [hR.1, hR.2.1]
  exact edgeFold_sets_door (room.x + room.width < m0.width)
    (fun j => (room.x + room.width, j))
    (fun j => (if j = 0 then ([] : List (Nat × Nat)) else [(room.x + room.width, j - 1)]) ++
      (if j + 1 ≥ m0.height then ([] : List (Nat × Nat)) else [(room.x + room.width, j + 1)]))
    m0 y hg hcor hperp (List.range' room.y room.height)
    (fun j hj hgj hcj hpj => doors_right_just m0 room hmem j hj hgj hcj hpj)
    ((mem_range'_iff _ _ _).mpr ⟨hy1, hy2⟩) m hR

/-- One room's pass of `place_doors` preserves the door relation. -/
theorem place_doors_room_doorR (m0 : Map) (room : Room) (hmem : room ∈ m0.rooms)
    (m : Map) (hR : doorR m0 m) : doorR m0 (m.place_doors_room room) := by
  unfold Map.place_doors_room
  exact doors_right_doorR m0 room hmem _
    (doors_left_doorR m0 room hmem _
      (doors_bottom_doorR m0 room hmem _
        (doors_top_doorR m0 room hmem m hR)))

theorem place_doors_room_stable (m : Map) (room : Room) (a b : Nat)
    (h : m.tiles b a = Tile.Door) : (m.place_doors_room room).tiles b a = Tile.Door := by
  unfold Map.place_doors_room
  exact doors_right_stable _ _ _ _ (doors_left_stable _ _ _ _
    (doors_bottom_stable _ _ _ _ (doors_top_stable _ _ _ _ h)))

/-- If the pre-pass door condition holds for `room` at `(x, y)`, the room's
own pass leaves a Door there. -/
theorem place_doors_room_sets (m0 : Map) (room : Room) (hmem : room ∈ m0.rooms)
    (x y : Nat) (hc : doorCondAt m0 room x y) (m : Map) (hR : doorR m0 m) :
    (m.place_doors_room room).tiles y x = Tile.Door := by
  obtain ⟨hcor, hd⟩ := hc
  unfold Map.place_doors_room
  rcases hd with ⟨hg, hy, hx1, hx2, hp1, hp2⟩ | ⟨hg, hy, hx1, hx2, hp1, hp2⟩ |
    ⟨hg, hx, hy1, hy2, hp1, hp2⟩ | ⟨hg, hx, hy1, hy2, hp1, hp2⟩
  · subst hy
    exact doors_right_stable _ _ _ _ (doors_left_stable _ _ _ _
      (doors_bottom_stable _ _ _ _
        (doors_top_sets m0 room hmem x hg hx1 hx2 hcor hp1 hp2 m hR)))
  · subst hy
    exact doors_right_stable _ _ _ _ (doors_left_stable _ _ _ _
      (doors_bottom_sets m0 room hmem x hg hx1 hx2 hcor hp1 hp2 _
        (doors_top_doorR m0 room hmem m hR)))
  · subst hx
    exact doors_right_stable _ _ _ _
      (doors_left_sets m0 room hmem y hg hy1 hy2 hcor hp1 hp2 _
        (doors_bottom_doorR m0 room hmem _ (doors_top_doorR m0 room hmem m hR)))
  · subst hx
    exact doors_right_sets m0 room hmem y hg hy1 hy2 hcor hp1 hp2 _
      (doors_left_doorR m0 room hmem _
        (doors_bottom_doorR m0 room hmem _ (doors_top_doorR m0 room hmem m hR)))

theorem place_doors_fold_doorR (m0 : Map) :
    ∀ l : List Room, (∀ r ∈ l, r ∈ m0.rooms) →
      ∀ m : Map, doorR m0 m → doorR m0 (List.foldl Map.place_doors_room m l) := by
  intro l
  induction l with
  | nil => exact fun _ m h => h
  | cons r t ih =>
      intro hsub m hR
      rw [List.foldl_cons]
      exact ih (fun s hs => hsub s (List.mem_cons_of_mem r hs)) _
        (place_doors_room_doorR m0 r (hsub r (List.mem_cons_self r t)) m hR)

/-- `place_doors` only turns justified Corridor cells into Doors. -/
theorem place_doors_doorR (m : Map) : doorR m m.place_doors := by
  unfold Map.place_doors
  exact place_doors_fold_doorR m m.rooms (fun r hr => hr) m (doorR_rfl m)

/-- Completeness: a cell satisfying the pre-pass condition for some room
ends the whole pass as a Door. -/
theorem place_doors_sets (m0 : Map) (room : Room) (hmem : room ∈ m0.rooms)
    (x y : Nat) (hc : doorCondAt m0 room x y) :
    m0.place_doors.tiles y x = Tile.Door := by
  obtain ⟨l1, l2, hsplit⟩ := List.append_of_mem hmem
  unfold Map.place_doors
  rw [hsplit, List.foldl_append, List.foldl_cons]
  have hsub1 : ∀ r ∈ l1, r ∈ m0.rooms := by
    intro r hr
    rw [hsplit]
    exact List.mem_append.mpr (Or.inl hr)
  have hR1 : doorR m0 (List.foldl Map.place_doors_room m0 l1) :=
    place_doors_fold_doorR m0 l1 hsub1 m0 (doorR_rfl m0)
  refine foldl_preserves (fun mm : Map => mm.tiles y x = Tile.Door) _ _ _ ?_
    (place_doors_room_sets m0 room hmem x y hc _ hR1)
  intro acc r hacc
  exact place_doors_room_stable acc r x y hacc

/-- Demo map for the second half of C7: two 3x3 rooms joined by a straight
single-tile corridor on row 2 (columns 4..6). -/
def c7_map : Map :=
  { width := 11, height := 5,
    tiles := fun y x =>
      if y = 2 ∧ 4 ≤ x ∧ x ≤ 6 then Tile.Corridor
      else if 1 ≤ y ∧ y ≤ 3 ∧ 1 ≤ x ∧ x ≤ 3 then Tile.Floor
      else if 1 ≤ y ∧ y ≤ 3 ∧ 7 ≤ x ∧ x ≤ 9 then Tile.Floor
      else Tile.Wall,
    rooms := [⟨1, 1, 3, 3⟩, ⟨7, 1, 3, 3⟩],
    revealed := fun _ _ => false }

theorem c7_map_no_door : ∀ a b : Nat, c7_map.tiles b a ≠ Tile.Door := by
  intro a b
  show (if b = 2 ∧ 4 ≤ a ∧ a ≤ 6 then Tile.Corridor
    else if 1 ≤ b ∧ b ≤ 3 ∧ 1 ≤ a ∧ a ≤ 3 then Tile.Floor
    else if 1 ≤ b ∧ b ≤ 3 ∧ 7 ≤ a ∧ a ≤ 9 then Tile.Floor
    else Tile.Wall) ≠ Tile.Door
  split
  · exact fun h => Tile.noConfusion h
  · split
    · exact fun h => Tile.noConfusion h
    · split
      · exact fun h => Tile.noConfusion h
      · exact fun h => Tile.noConfusion h

/-- **C7.** On a map with no pre-existing doors, the door-placement
post-pass leaves a Door at `(x, y)` iff some room has `(x, y)` immediately
outside one of its 4 edges within the edge's span, the cell held a
Corridor, and both cells perpendicular to the edge direction were Wall
(out-of-bounds counting as Wall) — `doorCondAt`.  In particular, on the
concrete two-room map joined by a straight single-tile corridor, the pass
yields exactly one Door at each room-facing end of the corridor (cells
(4,2) and (6,2)) and no Door anywhere else; the interior corridor cell
(5,2) stays a Corridor. -/
theorem c7_door_placement (m : Map) (x y : Nat)
    (hnd : ∀ a b : Nat, m.tiles b a ≠ Tile.Door) :
    (m.place_doors.tiles y x = Tile.Door ↔ ∃ room ∈ m.rooms, doorCondAt m room x y) ∧
    (c7_map.place_doors.tiles 2 4 = Tile.Door ∧
     c7_map.place_doors.tiles 2 6 = Tile.Door ∧
     c7_map.place_doors.tiles 2 5 = Tile.Corridor ∧
     ∀ a : Nat, a < 11 → ∀ b : Nat, b < 5 →
       c7_map.place_doors.tiles b a = Tile.Door → b = 2 ∧ (a = 4 ∨ a = 6)) := by
  constructor
  · constructor
    · intro hdoor
      rcases (place_doors_doorR m).2.2 x y with he | ⟨-, -, hex⟩
      · rw [he] at hdoor
        exact absurd hdoor (hnd x y)
      · exact hex
    · rintro ⟨room, hmem, hc⟩
      exact place_doors_sets m room hmem x y hc
  · exact ⟨by decide, by decide, by decide, by decide⟩

theorem c7_witness :
    ((∀ a b : Nat, c7_map.tiles b a ≠ Tile.Door) ∧
      (c7_map.place_doors.tiles 2 4 = Tile.Door ↔
        ∃ room ∈ c7_map.rooms, doorCondAt c7_map room 4 2)) ∧
    (c7_map.place_doors.tiles 2 5 = Tile.Door ↔
      ∃ room ∈ c7_map.rooms, doorCondAt c7_map room 5 2) := by
  exact ⟨⟨c7_map_no_door, (c7_door_placement c7_map 4 2 c7_map_no_door).1⟩,
    (c7_door_placement c7_map 5 2 c7_map_no_door).1⟩

end Worldfall
